import Mathlib

/-!
Verification of the ledger core of the `financial_accounting` repository.

The Python sources are shallowly embedded below:
* `domain/models.py` / `domain/enums.py`  → `OperationType`, `BankAccount`,
  `Category`, `Operation`
* `repositories/implementations.py`       → `Store` (the three repository
  classes are structurally identical dictionaries-plus-next-id; the embedding
  is one parametric store keyed through `HasKey`)
* `patterns/factory.py`                   → validation branches inlined at the
  facade call sites, exactly where `DomainFactory` is invoked
* `patterns/facade.py`                    → `create_account`, `delete_account`,
  `recalculate_balance`, `create_category`, `update_category`,
  `delete_category`, `create_operation`, `update_operation`,
  `delete_operation`, `update_account`
* `proxies.py`                            → `BankAccountRepositoryProxy`
* `patterns/template_method.py`           → `convert_account`,
  `convert_accounts` (import conversion with Python exception classes)
* `import_menu.py`                        → `import_one_operation`

Python `Decimal` values are used by this code base only through `+`, `-`,
unary negation and comparisons — the structure of an ordered additive group,
which the embedding takes as `Money := Int` (exact, kernel-computable
arithmetic; every claim below is invariant under the scaling that embeds any
finite set of decimals into the integers).  Calendar dates are `Nat`
day ordinals (only equality/order matters, and no claim depends on dates);
`raise ValueError(msg)` sites are mapped to the spec's error taxonomy
(`notFound`, `duplicateKey`, `validationFailed`, `invalidState`) according to
their message.  Facade procedures take the state and return the Python
result together with the state as mutated at the moment of return, so an
exception raised after a mutation would be visibly non-atomic.
-/

namespace FinAcct

/-- Error taxonomy of §7 of the spec; each `raise ValueError` site of the
source is mapped to the kind its message denotes. -/
inductive FinError where
  | duplicateKey
  | notFound
  | validationFailed
  | invalidState
deriving DecidableEq, Repr

/-- domain/enums.py: `OperationType` with members INCOME and EXPENSE. -/
inductive OperationType where
  | income
  | expense
deriving DecidableEq, Repr

/-- Money: Python `Decimal`, of which the code uses only the ordered
additive-group structure (see the header note). -/
abbrev Money := Int

/-- domain/models.py `BankAccount` dataclass. -/
structure BankAccount where
  id : Nat
  name : String
  balance : Money
deriving DecidableEq, Repr

/-- models.py `BankAccount.update_balance`: income adds, expense subtracts. -/
def BankAccount.update_balance (a : BankAccount) (amount : Money)
    (operation_type : OperationType) : BankAccount :=
  match operation_type with
  | .income => { a with balance := a.balance + amount }
  | .expense => { a with balance := a.balance - amount }

/-- domain/models.py `Category` dataclass. -/
structure Category where
  id : Nat
  type : OperationType
  name : String
deriving DecidableEq, Repr

/-- domain/models.py `Operation` dataclass.  `description` and `category_id`
are `Optional` in the source. -/
structure Operation where
  id : Nat
  type : OperationType
  bank_account_id : Nat
  amount : Money
  date : Nat
  description : Option String := none
  category_id : Option Nat := none
deriving DecidableEq, Repr

/-- Signed contribution of one operation to its account's balance. -/
def Operation.signed (op : Operation) : Money :=
  match op.type with
  | .income => op.amount
  | .expense => -op.amount

/-- Key projection shared by the three repositories (each keys its dict by
the entity's `id`). -/
class HasKey (α : Type) where
  key : α → Nat

instance : HasKey BankAccount := ⟨BankAccount.id⟩
instance : HasKey Category := ⟨Category.id⟩
instance : HasKey Operation := ⟨Operation.id⟩

/-- repositories/implementations.py: each repository is an insertion-ordered
dict `{id: entity}` plus a `_next_id` hint starting at 1. -/
structure Store (α : Type) where
  items : List α
  next_id : Nat
deriving DecidableEq, Repr

namespace Store

variable {α : Type} [HasKey α]

/-- `get_by_id`: `self._dict.get(id)` — the (unique) entry with that key. -/
def get_by_id (s : Store α) (id : Nat) : Option α :=
  s.items.find? (fun x => HasKey.key x == id)

/-- `get_all`: `list(self._dict.values())` in insertion order. -/
def get_all (s : Store α) : List α :=
  s.items

/-- `add`: raise on duplicate id, else insert and bump the hint to
`max(next_id, id + 1)`. -/
def add (s : Store α) (x : α) : Except FinError (Store α) :=
  if s.items.any (fun y => HasKey.key y == HasKey.key x) then
    .error .duplicateKey
  else
    .ok ⟨s.items ++ [x], max s.next_id (HasKey.key x + 1)⟩

/-- `update`: raise if the id is absent, else replace in place (a Python
dict assignment to an existing key keeps its position). -/
def update (s : Store α) (x : α) : Except FinError (Store α) :=
  if s.items.any (fun y => HasKey.key y == HasKey.key x) then
    .ok ⟨s.items.map (fun y => if HasKey.key y == HasKey.key x then x else y), s.next_id⟩
  else
    .error .notFound

/-- `delete`: raise if absent, else `del self._dict[id]`. -/
def delete (s : Store α) (id : Nat) : Except FinError (Store α) :=
  if s.items.any (fun y => HasKey.key y == id) then
    .ok ⟨s.items.filter (fun y => HasKey.key y != id), s.next_id⟩
  else
    .error .notFound

/-- `get_next_id`: return the hint (read-only; the hint moves only in `add`). -/
def get_next_id (s : Store α) : Nat :=
  s.next_id

end Store

/-- OperationRepository.get_by_account_id — insertion-ordered filter. -/
def Store.get_by_account_id (s : Store Operation) (account_id : Nat) : List Operation :=
  s.items.filter (fun op => op.bank_account_id == account_id)

/-- The three stores the facades operate on (the category store is untouched
by the account facade and vice versa; bundling them is only a convenience). -/
structure LedgerState where
  accounts : Store BankAccount
  categories : Store Category
  operations : Store Operation
deriving DecidableEq, Repr

/-- Fresh repositories as built by the process entry point. -/
def initialState : LedgerState :=
  ⟨⟨[], 1⟩, ⟨[], 1⟩, ⟨[], 1⟩⟩

/-- Python `str.strip()`: drop leading and trailing whitespace (structural
recursion so that concrete runs reduce). -/
def pyStrip (s : String) : String :=
  ⟨((s.toList.dropWhile Char.isWhitespace).reverse.dropWhile
      Char.isWhitespace).reverse⟩

/-- Python truthiness of an `Optional[int]`: `if category_id:` is `False`
both for `None` and for `0`. -/
def truthyNat : Option Nat → Bool
  | none => false
  | some n => n != 0

/-- facade.py `BankAccountFacade.create_account`.  The factory validation
(`initial_balance < 0`, blank name) happens before any store mutation; a
strictly positive opening balance additionally records a synthetic income
operation dated today. -/
def create_account (s : LedgerState) (name : String) (initial_balance : Money)
    (today : Nat) : Except FinError BankAccount × LedgerState :=
  let account_id := s.accounts.get_next_id
  if initial_balance < 0 then (.error .validationFailed, s)
  else if pyStrip name = "" then (.error .validationFailed, s)
  else
    let account : BankAccount := ⟨account_id, name, initial_balance⟩
    match s.accounts.add account with
    | .error e => (.error e, s)
    | .ok accounts1 =>
      let s1 : LedgerState := { s with accounts := accounts1 }
      if 0 < initial_balance then
        let operation_id := s1.operations.get_next_id
        let initial_operation : Operation :=
          ⟨operation_id, .income, account_id, initial_balance, today,
            some "Начальный баланс", none⟩
        match s1.operations.add initial_operation with
        | .error e => (.error e, s1)
        | .ok ops1 => (.ok account, { s1 with operations := ops1 })
      else
        (.ok account, s1)

/-- facade.py `BankAccountFacade.update_account`: replace the name, keep the
balance. -/
def update_account (s : LedgerState) (account_id : Nat) (name : String) :
    Except FinError BankAccount × LedgerState :=
  match s.accounts.get_by_id account_id with
  | none => (.error .notFound, s)
  | some account =>
    let updated_account : BankAccount := ⟨account.id, name, account.balance⟩
    match s.accounts.update updated_account with
    | .error e => (.error e, s)
    | .ok accounts1 => (.ok updated_account, { s with accounts := accounts1 })

/-- facade.py `BankAccountFacade.delete_account`: refuse (InvalidState) when
any operation references the account; otherwise delegate the delete. -/
def delete_account (s : LedgerState) (account_id : Nat) :
    Except FinError Unit × LedgerState :=
  if s.operations.get_by_account_id account_id ≠ [] then
    (.error .invalidState, s)
  else
    match s.accounts.delete account_id with
    | .error e => (.error e, s)
    | .ok accounts1 => (.ok (), { s with accounts := accounts1 })

/-- The balance fold of `recalculate_balance`: income adds, expense
subtracts, starting from `Decimal('0')`. -/
def balanceFold (operations : List Operation) : Money :=
  operations.foldl
    (fun new_balance operation =>
      match operation.type with
      | .income => new_balance + operation.amount
      | .expense => new_balance - operation.amount) 0

/-- facade.py `BankAccountFacade.recalculate_balance`: NotFound when the
account is absent, else overwrite the balance with the fold over the
account's operations and persist. -/
def recalculate_balance (s : LedgerState) (account_id : Nat) :
    Except FinError Money × LedgerState :=
  match s.accounts.get_by_id account_id with
  | none => (.error .notFound, s)
  | some account =>
    let operations := s.operations.get_by_account_id account_id
    let new_balance := balanceFold operations
    let account1 : BankAccount := { account with balance := new_balance }
    match s.accounts.update account1 with
    | .error e => (.error e, s)
    | .ok accounts1 => (.ok new_balance, { s with accounts := accounts1 })

/-- facade.py `CategoryFacade.create_category` (factory validates the name). -/
def create_category (s : LedgerState) (name : String)
    (category_type : OperationType) : Except FinError Category × LedgerState :=
  let category_id := s.categories.get_next_id
  if pyStrip name = "" then (.error .validationFailed, s)
  else
    let category : Category := ⟨category_id, category_type, name⟩
    match s.categories.add category with
    | .error e => (.error e, s)
    | .ok cats1 => (.ok category, { s with categories := cats1 })

/-- facade.py `CategoryFacade.update_category`: replace name and type in
place, keyed by the same id; no cross-check against operations. -/
def update_category (s : LedgerState) (category_id : Nat) (name : String)
    (category_type : OperationType) : Except FinError Category × LedgerState :=
  match s.categories.get_by_id category_id with
  | none => (.error .notFound, s)
  | some category =>
    let updated_category : Category := ⟨category.id, category_type, name⟩
    match s.categories.update updated_category with
    | .error e => (.error e, s)
    | .ok cats1 => (.ok updated_category, { s with categories := cats1 })

/-- facade.py `CategoryFacade.delete_category`: a bare repository delete,
with no check that operations still reference the category. -/
def delete_category (s : LedgerState) (category_id : Nat) :
    Except FinError Unit × LedgerState :=
  match s.categories.delete category_id with
  | .error e => (.error e, s)
  | .ok cats1 => (.ok (), { s with categories := cats1 })

/-- The tail of `OperationFacade.create_operation` after the reference
checks: read the id hint, factory-validate the amount, build the operation,
apply `update_balance` and persist the account, then insert the operation. -/
def create_operation_rest (s : LedgerState) (operation_type : OperationType)
    (account_id : Nat) (amount : Money) (operation_date : Nat)
    (description : Option String) (category_id : Option Nat)
    (account : BankAccount) : Except FinError Operation × LedgerState :=
  let operation_id := s.operations.get_next_id
  if amount ≤ 0 then (.error .validationFailed, s)
  else
    let operation : Operation :=
      ⟨operation_id, operation_type, account_id, amount, operation_date,
        description, category_id⟩
    let account1 := account.update_balance amount operation_type
    match s.accounts.update account1 with
    | .error e => (.error e, s)
    | .ok accounts1 =>
      let s1 : LedgerState := { s with accounts := accounts1 }
      match s1.operations.add operation with
      | .error e => (.error e, s1)
      | .ok ops1 => (.ok operation, { s1 with operations := ops1 })

/-- facade.py `OperationFacade.create_operation`.  Order of the source:
account lookup, `if category_id:` (Python truthiness — `None` and `0` both
skip the whole category block), category lookup and type match, then the
validated tail `create_operation_rest`. -/
def create_operation (s : LedgerState) (operation_type : OperationType)
    (account_id : Nat) (amount : Money) (operation_date : Nat)
    (description : Option String := none) (category_id : Option Nat := none) :
    Except FinError Operation × LedgerState :=
  match s.accounts.get_by_id account_id with
  | none => (.error .notFound, s)
  | some account =>
    if truthyNat category_id then
      match s.categories.get_by_id (category_id.getD 0) with
      | none => (.error .notFound, s)
      | some category =>
        if category.type ≠ operation_type then (.error .invalidState, s)
        else create_operation_rest s operation_type account_id amount
          operation_date description category_id account
    else create_operation_rest s operation_type account_id amount
      operation_date description category_id account

/-- facade.py `OperationFacade.update_operation`.  Python argument defaults
are `None`; the source keeps the old field unless the argument is truthy
(`operation_type`, `amount`, `operation_date`) or non-None (`description`,
`category_id`).  Enum members and date objects are always truthy, while
`Decimal('0')` is falsy, so a supplied amount of 0 keeps the old amount. -/
def update_operation (s : LedgerState) (operation_id : Nat)
    (operation_type : Option OperationType := none)
    (amount : Option Money := none) (operation_date : Option Nat := none)
    (description : Option String := none) (category_id : Option Nat := none) :
    Except FinError Operation × LedgerState :=
  match s.operations.get_by_id operation_id with
  | none => (.error .notFound, s)
  | some operation =>
    let updated_operation : Operation :=
      { id := operation.id
        type := operation_type.getD operation.type
        bank_account_id := operation.bank_account_id
        amount := amount.elim operation.amount
          (fun a => if a = 0 then operation.amount else a)
        date := operation_date.getD operation.date
        description := description.elim operation.description some
        category_id := category_id.elim operation.category_id some }
    match s.operations.update updated_operation with
    | .error e => (.error e, s)
    | .ok ops1 => (.ok updated_operation, { s with operations := ops1 })

/-- facade.py `OperationFacade.delete_operation`: NotFound when absent; if
the owning account still exists, reverse the balance effect and persist it;
in both cases delete the operation record. -/
def delete_operation (s : LedgerState) (operation_id : Nat) :
    Except FinError Unit × LedgerState :=
  match s.operations.get_by_id operation_id with
  | none => (.error .notFound, s)
  | some operation =>
    match s.accounts.get_by_id operation.bank_account_id with
    | some account =>
      let account1 : BankAccount :=
        match operation.type with
        | .income => { account with balance := account.balance - operation.amount }
        | .expense => { account with balance := account.balance + operation.amount }
      match s.accounts.update account1 with
      | .error e => (.error e, s)
      | .ok accounts1 =>
        let s1 : LedgerState := { s with accounts := accounts1 }
        match s1.operations.delete operation_id with
        | .error e => (.error e, s1)
        | .ok ops1 => (.ok (), { s1 with operations := ops1 })
    | none =>
      match s.operations.delete operation_id with
      | .error e => (.error e, s)
      | .ok ops1 => (.ok (), { s with operations := ops1 })

/-- The balance reversal `delete_operation` applies when the owning account
still exists: subtract a deleted income, add back a deleted expense. -/
def reverseBalance (account : BankAccount) (op : Operation) : BankAccount :=
  match op.type with
  | .income => { account with balance := account.balance - op.amount }
  | .expense => { account with balance := account.balance + op.amount }

/-- One facade call, as issued by the CLI shell. -/
inductive FacadeOp where
  | createAccount (name : String) (initial_balance : Money) (today : Nat)
  | updateAccount (account_id : Nat) (name : String)
  | deleteAccount (account_id : Nat)
  | recalcBalance (account_id : Nat)
  | createCategory (name : String) (category_type : OperationType)
  | updateCategory (category_id : Nat) (name : String) (category_type : OperationType)
  | deleteCategory (category_id : Nat)
  | createOperation (operation_type : OperationType) (account_id : Nat)
      (amount : Money) (operation_date : Nat) (description : Option String)
      (category_id : Option Nat)
  | updateOperation (operation_id : Nat) (operation_type : Option OperationType)
      (amount : Option Money) (operation_date : Option Nat)
      (description : Option String) (category_id : Option Nat)
  | deleteOperation (operation_id : Nat)
deriving DecidableEq, Repr

/-- Run one facade call; `some` exactly when the call returns normally
(the result value is dropped, only the state matters for the invariants). -/
def stepFacade (s : LedgerState) : FacadeOp → Option LedgerState
  | .createAccount name bal today =>
    match create_account s name bal today with
    | (.ok _, s1) => some s1
    | (.error _, _) => none
  | .updateAccount id name =>
    match update_account s id name with
    | (.ok _, s1) => some s1
    | (.error _, _) => none
  | .deleteAccount id =>
    match delete_account s id with
    | (.ok _, s1) => some s1
    | (.error _, _) => none
  | .recalcBalance id =>
    match recalculate_balance s id with
    | (.ok _, s1) => some s1
    | (.error _, _) => none
  | .createCategory name t =>
    match create_category s name t with
    | (.ok _, s1) => some s1
    | (.error _, _) => none
  | .updateCategory id name t =>
    match update_category s id name t with
    | (.ok _, s1) => some s1
    | (.error _, _) => none
  | .deleteCategory id =>
    match delete_category s id with
    | (.ok _, s1) => some s1
    | (.error _, _) => none
  | .createOperation t aid amount d descr cid =>
    match create_operation s t aid amount d descr cid with
    | (.ok _, s1) => some s1
    | (.error _, _) => none
  | .updateOperation oid t amount d descr cid =>
    match update_operation s oid t amount d descr cid with
    | (.ok _, s1) => some s1
    | (.error _, _) => none
  | .deleteOperation oid =>
    match delete_operation s oid with
    | (.ok _, s1) => some s1
    | (.error _, _) => none

/-- Run a sequence of facade calls; `some` iff every call succeeded. -/
def runFacade : List FacadeOp → LedgerState → Option LedgerState
  | [], s => some s
  | c :: cs, s =>
    match stepFacade s c with
    | none => none
    | some s1 => runFacade cs s1

/-- The calls claim C1 quantifies over: the ones that create or delete
operations on an account. -/
def FacadeOp.ledgerCall : FacadeOp → Bool
  | .createAccount .. => true
  | .createOperation .. => true
  | .deleteOperation .. => true
  | _ => false

/-- Facade calls other than `delete_category`, `update_category` and
`update_operation` (the ones that can break category references). -/
def FacadeOp.catSafe : FacadeOp → Bool
  | .deleteCategory _ => false
  | .updateCategory .. => false
  | .updateOperation .. => false
  | _ => true

/-! ### proxies.py — `BankAccountRepositoryProxy` -/

/-- proxies.py: the wrapped account repository plus the id-keyed cache
(an insertion-ordered dict) and the optional all-accounts snapshot. -/
structure BankAccountRepositoryProxy where
  real_repository : Store BankAccount
  cache : List (Nat × BankAccount)
  all_cache : Option (List BankAccount)
deriving DecidableEq, Repr

namespace BankAccountRepositoryProxy

/-- A freshly constructed proxy: both caches empty. -/
def mk0 (r : Store BankAccount) : BankAccountRepositoryProxy :=
  ⟨r, [], none⟩

/-- proxies.py `get_by_id`: serve from cache; on miss fetch from the real
repository and cache only a hit (absent results are not cached). -/
def get_by_id (p : BankAccountRepositoryProxy) (id : Nat) :
    Option BankAccount × BankAccountRepositoryProxy :=
  match p.cache.find? (fun e => e.1 == id) with
  | some e => (some e.2, p)
  | none =>
    match p.real_repository.get_by_id id with
    | some account => (some account, { p with cache := p.cache ++ [(id, account)] })
    | none => (none, p)

/-- proxies.py `get_all`: serve the snapshot if present; otherwise fetch,
store the snapshot and rebuild the id-keyed cache from it. -/
def get_all (p : BankAccountRepositoryProxy) :
    List BankAccount × BankAccountRepositoryProxy :=
  match p.all_cache with
  | some l => (l, p)
  | none =>
    let accounts := p.real_repository.get_all
    (accounts,
      { p with all_cache := some accounts,
               cache := accounts.map (fun acc => (acc.id, acc)) })

/-- proxies.py `add`: delegate, then clear both caches.  When the delegated
call raises, the exception propagates before `_invalidate_cache` runs, so
the caches are left as they were. -/
def add (p : BankAccountRepositoryProxy) (account : BankAccount) :
    Except FinError Unit × BankAccountRepositoryProxy :=
  match p.real_repository.add account with
  | .error e => (.error e, p)
  | .ok r1 => (.ok (), ⟨r1, [], none⟩)

/-- proxies.py `update`: delegate, then clear both caches (same caveat as
`add` for the raising path). -/
def update (p : BankAccountRepositoryProxy) (account : BankAccount) :
    Except FinError Unit × BankAccountRepositoryProxy :=
  match p.real_repository.update account with
  | .error e => (.error e, p)
  | .ok r1 => (.ok (), ⟨r1, [], none⟩)

/-- proxies.py `delete`: delegate, then clear both caches (same caveat). -/
def delete (p : BankAccountRepositoryProxy) (id : Nat) :
    Except FinError Unit × BankAccountRepositoryProxy :=
  match p.real_repository.delete id with
  | .error e => (.error e, p)
  | .ok r1 => (.ok (), ⟨r1, [], none⟩)

/-- proxies.py `get_next_id`: always delegates, never cached. -/
def get_next_id (p : BankAccountRepositoryProxy) : Nat :=
  p.real_repository.get_next_id

end BankAccountRepositoryProxy

/-- One call on the proxy interface. -/
inductive ProxyOp where
  | getById (id : Nat)
  | getAll
  | addAccount (account : BankAccount)
  | updateAccount (account : BankAccount)
  | deleteAccount (id : Nat)
  | nextId
deriving DecidableEq, Repr

/-- State reached after one proxy call (results are observed separately;
a raising write leaves the proxy as the source does). -/
def stepProxy (p : BankAccountRepositoryProxy) : ProxyOp → BankAccountRepositoryProxy
  | .getById id => (p.get_by_id id).2
  | .getAll => p.get_all.2
  | .addAccount a => (p.add a).2
  | .updateAccount a => (p.update a).2
  | .deleteAccount id => (p.delete id).2
  | .nextId => p

/-- Run a sequence of proxy calls (no direct writes to the wrapped store). -/
def runProxy (ops : List ProxyOp) (p : BankAccountRepositoryProxy) :
    BankAccountRepositoryProxy :=
  ops.foldl stepProxy p

/-! ### patterns/template_method.py — import conversion -/

/-- The Python exception classes that matter to
`DataImporter._convert_to_domain_objects`: its per-record handler is
`except (KeyError, ValueError)`.  `decimal.InvalidOperation` derives from
`DecimalException(ArithmeticError)`, not from `ValueError`. -/
inductive PyExc where
  | keyError
  | valueError
  | invalidOperation
deriving DecidableEq, Repr

/-- Which exceptions the per-record `except (KeyError, ValueError)` clause
of `_convert_to_domain_objects` catches. -/
def caughtByConvert : PyExc → Bool
  | .keyError => true
  | .valueError => true
  | .invalidOperation => false

/-- A raw account record of the parsed tree: `None` marks a missing key
(access raises `KeyError`); the balance field is kept as the string
`str(account_data['balance'])` hands to `Decimal`. -/
structure RawAccount where
  id : Option Nat
  name : Option String
  balance : Option String
deriving DecidableEq, Repr

/-- All characters are digits and there is at least one. -/
def isDigits (cs : List Char) : Bool :=
  !cs.isEmpty && cs.all (fun c => c.isDigit)

/-- Numeric value of a digit string. -/
def digitsToNat (cs : List Char) : Nat :=
  cs.foldl (fun n c => 10 * n + (c.toNat - 48)) 0

/-- Split a character list at every '.' (structural recursion). -/
def splitOnDot : List Char → List (List Char)
  | [] => [[]]
  | c :: rest =>
    match splitOnDot rest with
    | [] => [[]]
    | h :: t => if c = '.' then [] :: h :: t else (c :: h) :: t

/-- Modelled from the spec and the `decimal` module: the string-to-Decimal
conversion performed by `Decimal(str(...))` (the `decimal` module is outside
the repository).  Plain `[sign] digits [. digits]` forms convert; anything
else raises `decimal.InvalidOperation` (exponents and the special values,
which no input of this development uses, are treated as outside the modelled
grammar).  Values are taken at the integer precision of `Money` (a
fractional tail is accepted exactly as in Python but truncated in the value;
no claim depends on fractional amounts). -/
def parseDecimal (s : String) : Except PyExc Money :=
  let (neg, body) :=
    match s.toList with
    | '-' :: rest => (true, rest)
    | '+' :: rest => (false, rest)
    | cs => (false, cs)
  match splitOnDot body with
  | [ip] =>
    if isDigits ip then
      let v : Money := (digitsToNat ip : Nat)
      .ok (if neg then -v else v)
    else .error .invalidOperation
  | [ip, fp] =>
    if (isDigits ip || ip.isEmpty) && (isDigits fp || fp.isEmpty)
        && !(ip.isEmpty && fp.isEmpty) then
      let v : Money := (digitsToNat ip : Nat)
      .ok (if neg then -v else v)
    else .error .invalidOperation
  | _ => .error .invalidOperation

/-- template_method.py, account branch of `_convert_to_domain_objects`:
build `BankAccount(id=.., name=.., balance=Decimal(str(..)))`, where a
missing key raises `KeyError` and a bad balance string raises whatever
`Decimal` raises. -/
def convert_account (r : RawAccount) : Except PyExc BankAccount :=
  match r.id with
  | none => .error .keyError
  | some i =>
    match r.name with
    | none => .error .keyError
    | some n =>
      match r.balance with
      | none => .error .keyError
      | some b =>
        match parseDecimal b with
        | .error e => .error e
        | .ok v => .ok ⟨i, n, v⟩

/-- The account loop of `_convert_to_domain_objects`: per record, append on
success; on a caught exception print a diagnostic and continue (the `Nat`
counts those skips); an uncaught exception aborts the whole conversion. -/
def convert_accounts : List RawAccount → Except PyExc (List BankAccount × Nat)
  | [] => .ok ([], 0)
  | r :: rs =>
    match convert_account r with
    | .ok a =>
      match convert_accounts rs with
      | .error e => .error e
      | .ok (l, k) => .ok (a :: l, k)
    | .error e =>
      if caughtByConvert e then
        match convert_accounts rs with
        | .error e1 => .error e1
        | .ok (l, k) => .ok (l, k + 1)
      else .error e

/-- import_menu.py, account application loop body: skip when the id already
exists, otherwise 'self.account_facade._account_repo.add(account)'.
Returns whether the record was counted as imported. -/
def import_one_account (s : LedgerState) (account : BankAccount) :
    Bool × LedgerState :=
  match s.accounts.get_by_id account.id with
  | some _ => (false, s)
  | none =>
    match s.accounts.add account with
    | .error _ => (false, s)
    | .ok accounts1 => (true, { s with accounts := accounts1 })

/-- Fold the account application loop over the converted records, counting
the imported ones as `imported_accounts` does. -/
def import_accounts (s : LedgerState) : List BankAccount → Nat × LedgerState
  | [] => (0, s)
  | a :: as1 =>
    let (ok1, s1) := import_one_account s a
    let (k, s2) := import_accounts s1 as1
    (k + (if ok1 then 1 else 0), s2)

/-- import_menu.py, operation application loop body (lines 97–122): skip a
duplicate operation id, skip when the account is missing, and — only when
`if operation.category_id:` is truthy, i.e. neither `None` nor `0` — skip
when the category is missing (its type is not re-checked); otherwise add
the operation and then apply `update_balance` to the account. -/
def import_one_operation (s : LedgerState) (operation : Operation) :
    Bool × LedgerState :=
  match s.operations.get_by_id operation.id with
  | some _ => (false, s)
  | none =>
    match s.accounts.get_by_id operation.bank_account_id with
    | none => (false, s)
    | some account =>
      let proceed : Bool × LedgerState :=
        match s.operations.add operation with
        | .error _ => (false, s)
        | .ok ops1 =>
          let s1 : LedgerState := { s with operations := ops1 }
          let account1 := account.update_balance operation.amount operation.type
          match s1.accounts.update account1 with
          | .error _ => (false, s1)
          | .ok accounts1 => (true, { s1 with accounts := accounts1 })
      if truthyNat operation.category_id then
        match s.categories.get_by_id (operation.category_id.getD 0) with
        | none => (false, s)
        | some _ => proceed
      else proceed

/-! ### Store invariants and basic lemmas -/

/-- Well-formedness every repository maintains: ids are unique and the
`_next_id` hint is strictly above every stored id. -/
abbrev storeWF {α : Type} [HasKey α] (s : Store α) : Prop :=
  (∀ x ∈ s.items, HasKey.key x < s.next_id) ∧ (s.items.map HasKey.key).Nodup

/-- Well-formedness of the ledger: both stores plus the fact that every
operation references an account id already handed out. -/
abbrev ledgerWF (s : LedgerState) : Prop :=
  storeWF s.accounts ∧ storeWF s.operations ∧
    ∀ op ∈ s.operations.items, op.bank_account_id < s.accounts.next_id

/-- Signed sum (income adds, expense subtracts) of the operations stored
for one account — the quantity `recalculate_balance` recomputes. -/
def sumFor (ops : List Operation) (account_id : Nat) : Money :=
  ((ops.filter (fun op => op.bank_account_id == account_id)).map Operation.signed).sum

/-- The balance derivation invariant: each account's incrementally
maintained `balance` equals the signed sum of its stored operations. -/
abbrev balInv (s : LedgerState) : Prop :=
  ∀ a ∈ s.accounts.items, a.balance = sumFor s.operations.items a.id

section StoreLemmas

variable {α : Type} [HasKey α]

theorem Store.get_by_id_mem {s : Store α} {id : Nat} {x : α}
    (h : s.get_by_id id = some x) : x ∈ s.items ∧ HasKey.key x = id := by
  refine ⟨List.mem_of_find?_eq_some h, ?_⟩
  have := List.find?_some h
  simpa using this

theorem Store.get_by_id_eq_none {s : Store α} {id : Nat} :
    s.get_by_id id = none ↔ ∀ x ∈ s.items, HasKey.key x ≠ id := by
  unfold Store.get_by_id
  rw [List.find?_eq_none]
  simp

theorem find?_key_of_nodup {l : List α} (hnd : (l.map HasKey.key).Nodup)
    {x : α} (hx : x ∈ l) :
    l.find? (fun y => HasKey.key y == HasKey.key x) = some x := by
  induction l with
  | nil => cases hx
  | cons a t ih =>
    simp only [List.map_cons, List.nodup_cons] at hnd
    rcases List.mem_cons.mp hx with rfl | hmem
    · exact List.find?_cons_of_pos _ (by simp)
    · have hne : HasKey.key a ≠ HasKey.key x := by
        intro he
        exact hnd.1 (he ▸ List.mem_map_of_mem _ hmem)
      rw [List.find?_cons_of_neg _ (by simp [hne])]
      exact ih hnd.2 hmem

theorem Store.get_by_id_of_nodup_mem {s : Store α}
    (hnd : (s.items.map HasKey.key).Nodup) {x : α} (hx : x ∈ s.items) :
    s.get_by_id (HasKey.key x) = some x :=
  find?_key_of_nodup hnd hx

theorem Store.add_ok {s : Store α} {x : α}
    (h : ∀ y ∈ s.items, HasKey.key y ≠ HasKey.key x) :
    s.add x = .ok ⟨s.items ++ [x], max s.next_id (HasKey.key x + 1)⟩ := by
  unfold Store.add
  rw [if_neg]
  simp only [List.any_eq_true, beq_iff_eq, not_exists]
  intro y
  intro hc
  exact absurd hc.2 (h y hc.1)

theorem Store.update_ok {s : Store α} {x y : α}
    (h : s.get_by_id (HasKey.key x) = some y) :
    s.update x =
      .ok ⟨s.items.map (fun z => if HasKey.key z == HasKey.key x then x else z),
           s.next_id⟩ := by
  unfold Store.update
  rw [if_pos]
  have := Store.get_by_id_mem h
  simp only [List.any_eq_true, beq_iff_eq]
  exact ⟨y, this.1, this.2⟩

theorem Store.delete_ok {s : Store α} {id : Nat} {y : α}
    (h : s.get_by_id id = some y) :
    s.delete id = .ok ⟨s.items.filter (fun z => HasKey.key z != id), s.next_id⟩ := by
  unfold Store.delete
  rw [if_pos]
  have := Store.get_by_id_mem h
  simp only [List.any_eq_true, beq_iff_eq]
  exact ⟨y, this.1, this.2⟩

theorem find?_map_replace_self {l : List α} {x a : α} {i : Nat}
    (hfind : l.find? (fun y => HasKey.key y == i) = some a)
    (hkey : HasKey.key x = i) :
    (l.map (fun y => if HasKey.key y == HasKey.key x then x else y)).find?
        (fun y => HasKey.key y == i) = some x := by
  induction l with
  | nil => simp at hfind
  | cons b t ih =>
    by_cases hb : HasKey.key b = i
    · simp only [List.map_cons, hkey, hb, beq_self_eq_true, if_pos]
      exact List.find?_cons_of_pos _ (by simp [hkey])
    · rw [List.find?_cons_of_neg _ (by simp [hb])] at hfind
      simp only [List.map_cons]
      have hbx : (HasKey.key b == HasKey.key x) = false := by
        simp [hkey, hb]
      rw [hbx]
      simp only [Bool.false_eq_true, if_false]
      rw [List.find?_cons_of_neg _ (by simp [hb])]
      exact ih hfind

theorem map_replace_keys {l : List α} {x : α} :
    (l.map (fun y => if HasKey.key y == HasKey.key x then x else y)).map HasKey.key
      = l.map HasKey.key := by
  rw [List.map_map]
  apply List.map_congr_left
  intro y _
  by_cases h : HasKey.key y = HasKey.key x <;> simp [h]

theorem map_replace_idem {l : List α} {x : α} :
    (l.map (fun y => if HasKey.key y == HasKey.key x then x else y)).map
        (fun y => if HasKey.key y == HasKey.key x then x else y)
      = l.map (fun y => if HasKey.key y == HasKey.key x then x else y) := by
  rw [List.map_map]
  apply List.map_congr_left
  intro y _
  by_cases h : HasKey.key y = HasKey.key x <;> simp [h]

theorem mem_map_replace {l : List α} {x a : α}
    (ha : a ∈ l.map (fun y => if HasKey.key y == HasKey.key x then x else y)) :
    ∃ b ∈ l, a = if HasKey.key b == HasKey.key x then x else b := by
  rcases List.mem_map.mp ha with ⟨b, hb, he⟩
  exact ⟨b, hb, he.symm⟩

end StoreLemmas

/-! ### Balance arithmetic lemmas -/

theorem balanceFold_go (l : List Operation) (b : Money) :
    l.foldl
      (fun new_balance operation =>
        match operation.type with
        | .income => new_balance + operation.amount
        | .expense => new_balance - operation.amount) b
      = b + (l.map Operation.signed).sum := by
  induction l generalizing b with
  | nil => simp
  | cons op t ih =>
    simp only [List.foldl_cons, List.map_cons, List.sum_cons]
    rw [ih]
    cases h : op.type <;> simp only [Operation.signed, h] <;> ring

theorem balanceFold_eq (l : List Operation) :
    balanceFold l = (l.map Operation.signed).sum := by
  unfold balanceFold
  rw [balanceFold_go]
  ring

theorem sumFor_cons (a : Operation) (t : List Operation) (aid : Nat) :
    sumFor (a :: t) aid
      = (if a.bank_account_id = aid then a.signed else 0) + sumFor t aid := by
  unfold sumFor
  by_cases h : a.bank_account_id = aid <;> simp [List.filter_cons, h]

theorem sumFor_append_one (l : List Operation) (x : Operation) (aid : Nat) :
    sumFor (l ++ [x]) aid
      = sumFor l aid + (if x.bank_account_id = aid then x.signed else 0) := by
  unfold sumFor
  rw [List.filter_append, List.map_append, List.sum_append]
  by_cases h : x.bank_account_id = aid <;> simp [h]

theorem sumFor_eq_zero {l : List Operation} {aid : Nat}
    (h : ∀ op ∈ l, op.bank_account_id ≠ aid) : sumFor l aid = 0 := by
  unfold sumFor
  rw [List.filter_eq_nil_iff.mpr]
  · simp
  · intro a ha
    simpa using h a ha

theorem sumFor_remove {l : List Operation}
    (hnd : (l.map HasKey.key).Nodup) {x : Operation} (hx : x ∈ l) (aid : Nat) :
    sumFor (l.filter (fun o => HasKey.key o != HasKey.key x)) aid
      = sumFor l aid - (if x.bank_account_id = aid then x.signed else 0) := by
  induction l with
  | nil => cases hx
  | cons a t ih =>
    simp only [List.map_cons, List.nodup_cons] at hnd
    rcases List.mem_cons.mp hx with rfl | hmem
    · have ht : t.filter (fun o => HasKey.key o != HasKey.key x) = t := by
        apply List.filter_eq_self.mpr
        intro o ho
        simp only [bne_iff_ne, ne_eq, decide_eq_true_eq]
        intro he
        exact hnd.1 (he ▸ List.mem_map_of_mem _ ho)
      rw [List.filter_cons, if_neg (by simp)]
      rw [ht, sumFor_cons]
      ring
    · have hne : HasKey.key a ≠ HasKey.key x := by
        intro he
        exact hnd.1 (he ▸ List.mem_map_of_mem _ hmem)
      rw [List.filter_cons, if_pos (by simpa using hne)]
      rw [sumFor_cons, sumFor_cons, ih hnd.2 hmem]
      ring

theorem key_account_def (a : BankAccount) : HasKey.key a = a.id := rfl

theorem key_category_def (c : Category) : HasKey.key c = c.id := rfl

theorem key_operation_def (op : Operation) : HasKey.key op = op.id := rfl

/-! ### Well-formedness preservation for the three store mutations -/

theorem storeWF_append {α : Type} [HasKey α] {s : Store α} (hwf : storeWF s)
    {x : α} (hx : HasKey.key x = s.next_id) :
    storeWF (⟨s.items ++ [x], max s.next_id (s.next_id + 1)⟩ : Store α) := by
  obtain ⟨hb, hn⟩ := hwf
  constructor
  · intro y hy
    rcases List.mem_append.mp hy with hy | hy
    · have := hb y hy
      simp only
      omega
    · simp only [List.mem_singleton] at hy
      subst hy
      simp only [hx]
      omega
  · simp only [List.map_append]
    refine List.Nodup.append hn (by simp) ?_
    intro k hk
    simp only [List.map_cons, List.map_nil, List.mem_singleton]
    rcases List.mem_map.mp hk with ⟨y, hy, rfl⟩
    have := hb y hy
    omega

theorem storeWF_replace {α : Type} [HasKey α] {s : Store α} (hwf : storeWF s)
    (x : α) :
    storeWF (⟨s.items.map (fun y => if HasKey.key y == HasKey.key x then x else y),
      s.next_id⟩ : Store α) := by
  obtain ⟨hb, hn⟩ := hwf
  constructor
  · intro z hz
    rcases List.mem_map.mp hz with ⟨y, hy, rfl⟩
    by_cases hk : HasKey.key y = HasKey.key x
    · simp only [hk, beq_self_eq_true, if_pos]
      have := hb y hy
      omega
    · simp only [beq_iff_eq, hk, if_false]
      exact hb y hy
  · simp only
    rw [map_replace_keys]
    exact hn

theorem storeWF_filter {α : Type} [HasKey α] {s : Store α} (hwf : storeWF s)
    (p : α → Bool) :
    storeWF (⟨s.items.filter p, s.next_id⟩ : Store α) := by
  obtain ⟨hb, hn⟩ := hwf
  constructor
  · intro y hy
    exact hb y (List.mem_filter.mp hy).1
  · exact ((s.items.filter_sublist).map HasKey.key).nodup hn

/-! ### Success-shape lemmas: what each facade call does when it returns -/

section StoreOkLemmas

variable {α : Type} [HasKey α]

theorem Store.add_eq_ok {s : Store α} {x : α} {r : Store α}
    (h : s.add x = .ok r) :
    r = ⟨s.items ++ [x], max s.next_id (HasKey.key x + 1)⟩ ∧
      ∀ y ∈ s.items, HasKey.key y ≠ HasKey.key x := by
  unfold Store.add at h
  split at h
  · simp at h
  next hc =>
    refine ⟨by injection h with h1; exact h1.symm, ?_⟩
    intro y hy he
    exact hc (List.any_eq_true.mpr ⟨y, hy, by simp [he]⟩)

theorem Store.update_eq_ok {s : Store α} {x : α} {r : Store α}
    (h : s.update x = .ok r) :
    r = ⟨s.items.map (fun y => if HasKey.key y == HasKey.key x then x else y),
         s.next_id⟩ := by
  unfold Store.update at h
  split at h
  · injection h with h1
    exact h1.symm
  · simp at h

theorem Store.delete_eq_ok {s : Store α} {id : Nat} {r : Store α}
    (h : s.delete id = .ok r) :
    r = ⟨s.items.filter (fun y => HasKey.key y != id), s.next_id⟩ := by
  unfold Store.delete at h
  split at h
  · injection h with h1
    exact h1.symm
  · simp at h

end StoreOkLemmas

theorem create_account_ok {s s' : LedgerState} {acc : BankAccount}
    {name : String} {bal : Money} {today : Nat}
    (h : create_account s name bal today = (.ok acc, s')) :
    0 ≤ bal ∧
    acc = ⟨s.accounts.next_id, name, bal⟩ ∧
    s'.accounts = ⟨s.accounts.items ++ [acc],
      max s.accounts.next_id (s.accounts.next_id + 1)⟩ ∧
    (∀ y ∈ s.accounts.items, HasKey.key y ≠ s.accounts.next_id) ∧
    s'.categories = s.categories ∧
    ((0 < bal ∧
        s'.operations = ⟨s.operations.items ++
            [⟨s.operations.next_id, .income, s.accounts.next_id, bal, today,
              some "Начальный баланс", none⟩],
          max s.operations.next_id (s.operations.next_id + 1)⟩ ∧
        (∀ y ∈ s.operations.items, HasKey.key y ≠ s.operations.next_id))
      ∨ (bal = 0 ∧ s'.operations = s.operations)) := by
  simp only [create_account, Store.get_next_id] at h
  split at h
  · simp at h
  next h1 =>
  split at h
  · simp at h
  next h2 =>
  have hbal : 0 ≤ bal := not_lt.mp h1
  split at h
  · simp at h
  next accounts1 hadd =>
  obtain ⟨ha1, hfresh⟩ := Store.add_eq_ok hadd
  subst ha1
  split at h
  next hpos =>
    split at h
    · simp at h
    next ops1 hopadd =>
    obtain ⟨ho1, hofresh⟩ := Store.add_eq_ok hopadd
    subst ho1
    simp only [Prod.mk.injEq, Except.ok.injEq] at h
    obtain ⟨rfl, rfl⟩ := h
    exact ⟨hbal, rfl, rfl, hfresh, rfl, .inl ⟨hpos, rfl, hofresh⟩⟩
  next hpos =>
    simp only [Prod.mk.injEq, Except.ok.injEq] at h
    obtain ⟨rfl, rfl⟩ := h
    exact ⟨hbal, rfl, rfl, hfresh, rfl, .inr ⟨le_antisymm (not_lt.mp hpos) hbal, rfl⟩⟩

theorem create_operation_rest_ok {s s' : LedgerState} {op : Operation}
    {operation_type : OperationType} {account_id : Nat} {amount : Money}
    {operation_date : Nat} {description : Option String}
    {category_id : Option Nat} {account : BankAccount}
    (h : create_operation_rest s operation_type account_id amount
          operation_date description category_id account = (.ok op, s')) :
    0 < amount ∧
    op = ⟨s.operations.next_id, operation_type, account_id, amount,
          operation_date, description, category_id⟩ ∧
    s'.accounts = ⟨s.accounts.items.map
        (fun y => if HasKey.key y ==
            HasKey.key (account.update_balance amount operation_type)
          then account.update_balance amount operation_type else y),
      s.accounts.next_id⟩ ∧
    s'.categories = s.categories ∧
    s'.operations = ⟨s.operations.items ++ [op],
      max s.operations.next_id (s.operations.next_id + 1)⟩ ∧
    (∀ y ∈ s.operations.items, HasKey.key y ≠ s.operations.next_id) := by
  simp only [create_operation_rest, Store.get_next_id] at h
  split at h
  · simp at h
  next hpos =>
  have hamount : 0 < amount := not_le.mp hpos
  split at h
  · simp at h
  next accounts1 hupd =>
  have ha1 := Store.update_eq_ok hupd
  subst ha1
  split at h
  · simp at h
  next ops1 hadd =>
  obtain ⟨ho1, hofresh⟩ := Store.add_eq_ok hadd
  subst ho1
  simp only [Prod.mk.injEq, Except.ok.injEq] at h
  obtain ⟨rfl, rfl⟩ := h
  exact ⟨hamount, rfl, rfl, rfl, rfl, hofresh⟩

theorem create_operation_ok {s s' : LedgerState} {op : Operation}
    {operation_type : OperationType} {account_id : Nat} {amount : Money}
    {operation_date : Nat} {description : Option String}
    {category_id : Option Nat}
    (h : create_operation s operation_type account_id amount operation_date
          description category_id = (.ok op, s')) :
    ∃ account, s.accounts.get_by_id account_id = some account ∧
      (truthyNat category_id = true →
        ∃ category, s.categories.get_by_id (category_id.getD 0) = some category ∧
          category.type = operation_type) ∧
      create_operation_rest s operation_type account_id amount operation_date
        description category_id account = (.ok op, s') := by
  unfold create_operation at h
  split at h
  · simp at h
  next account hacc =>
  split at h
  next htruthy =>
    split at h
    · simp at h
    next category hcat =>
    split at h
    · simp at h
    next hty =>
    exact ⟨account, hacc, fun _ => ⟨category, hcat, not_ne_iff.mp hty⟩, h⟩
  next htruthy =>
    refine ⟨account, hacc, fun ht => absurd ht (by simpa using htruthy), h⟩

theorem delete_operation_ok {s s' : LedgerState} {operation_id : Nat}
    (h : delete_operation s operation_id = (.ok (), s')) :
    ∃ op, s.operations.get_by_id operation_id = some op ∧
      s'.categories = s.categories ∧
      s'.operations = ⟨s.operations.items.filter
          (fun y => HasKey.key y != operation_id), s.operations.next_id⟩ ∧
      ((∃ account, s.accounts.get_by_id op.bank_account_id = some account ∧
          s'.accounts = ⟨s.accounts.items.map
              (fun y => if HasKey.key y == HasKey.key (reverseBalance account op)
                then reverseBalance account op else y),
            s.accounts.next_id⟩)
        ∨ (s.accounts.get_by_id op.bank_account_id = none ∧
            s'.accounts = s.accounts)) := by
  unfold delete_operation at h
  split at h
  · simp at h
  next op hop =>
  refine ⟨op, hop, ?_⟩
  split at h
  next account hacc =>
    split at h
    all_goals (
      rename_i hty
      simp only [] at h
      split at h
      · simp at h
      next accounts1 hupd =>
        have ha1 := Store.update_eq_ok hupd
        subst ha1
        split at h
        · simp at h
        next ops1 hdel =>
          have ho1 := Store.delete_eq_ok hdel
          subst ho1
          simp only [Prod.mk.injEq, Except.ok.injEq] at h
          obtain ⟨-, rfl⟩ := h
          exact ⟨rfl, rfl, .inl ⟨account, hacc, by simp [reverseBalance, hty]⟩⟩)
  next hacc =>
    split at h
    · simp at h
    next ops1 hdel =>
    have ho1 := Store.delete_eq_ok hdel
    subst ho1
    simp only [Prod.mk.injEq, Except.ok.injEq] at h
    obtain ⟨-, rfl⟩ := h
    exact ⟨rfl, rfl, .inr ⟨hacc, rfl⟩⟩

/-! ### Preservation of `ledgerWF` and `balInv` by the balance-relevant calls -/

theorem create_account_preserves {s s' : LedgerState} {acc : BankAccount}
    {name : String} {bal : Money} {today : Nat}
    (hwf : ledgerWF s) (hinv : balInv s)
    (h : create_account s name bal today = (.ok acc, s')) :
    ledgerWF s' ∧ balInv s' := by
  obtain ⟨hwa, hwo, href⟩ := hwf
  obtain ⟨hbal, hacc, haccs, hfresh, hcats, hops⟩ := create_account_ok h
  subst hacc
  have hsum0 : sumFor s.operations.items s.accounts.next_id = 0 := by
    apply sumFor_eq_zero
    intro op hop
    have := href op hop
    omega
  rcases hops with ⟨hpos, hopseq, hofresh⟩ | ⟨hzero, hopseq⟩
  · refine ⟨⟨?_, ?_, ?_⟩, ?_⟩
    · rw [haccs]
      exact storeWF_append hwa rfl
    · rw [hopseq]
      exact storeWF_append hwo rfl
    · rw [hopseq, haccs]
      intro op hop
      simp only [List.mem_append, List.mem_singleton] at hop
      rcases hop with hop | rfl
      · have := href op hop
        simp only
        omega
      · simp only
        omega
    · intro a ha
      rw [haccs] at ha
      rw [hopseq]
      simp only [List.mem_append, List.mem_singleton] at ha
      rcases ha with ha | rfl
      · rw [sumFor_append_one, if_neg]
        · simpa using hinv a ha
        · have := hwa.1 a ha
          rw [key_account_def] at this
          simp only
          omega
      · simp only [sumFor_append_one, hsum0]
        simp [Operation.signed]
  · refine ⟨⟨?_, ?_, ?_⟩, ?_⟩
    · rw [haccs]
      exact storeWF_append hwa rfl
    · rw [hopseq]
      exact hwo
    · rw [hopseq, haccs]
      intro op hop
      have := href op hop
      simp only
      omega
    · intro a ha
      rw [haccs] at ha
      rw [hopseq]
      simp only [List.mem_append, List.mem_singleton] at ha
      rcases ha with ha | rfl
      · exact hinv a ha
      · simpa [hzero] using hsum0.symm

theorem create_operation_preserves {s s' : LedgerState} {op : Operation}
    {operation_type : OperationType} {account_id : Nat} {amount : Money}
    {operation_date : Nat} {description : Option String}
    {category_id : Option Nat}
    (hwf : ledgerWF s) (hinv : balInv s)
    (h : create_operation s operation_type account_id amount operation_date
          description category_id = (.ok op, s')) :
    ledgerWF s' ∧ balInv s' := by
  obtain ⟨hwa, hwo, href⟩ := hwf
  obtain ⟨account, hacc, -, hrest⟩ := create_operation_ok h
  obtain ⟨hpos, hop, haccs, hcats, hops, hofresh⟩ := create_operation_rest_ok hrest
  subst hop
  obtain ⟨haccmem, hacckey⟩ := Store.get_by_id_mem hacc
  have hkey : HasKey.key (account.update_balance amount operation_type)
      = HasKey.key account := by
    cases operation_type <;> rfl
  refine ⟨⟨?_, ?_, ?_⟩, ?_⟩
  · rw [haccs]
    exact storeWF_replace hwa _
  · rw [hops]
    exact storeWF_append hwo rfl
  · rw [hops, haccs]
    intro o ho
    simp only [List.mem_append, List.mem_singleton] at ho
    rcases ho with ho | rfl
    · exact href o ho
    · simp only
      have := hwa.1 account haccmem
      rw [key_account_def] at this hacckey
      omega
  · intro a ha
    rw [haccs] at ha
    rw [hops]
    rcases mem_map_replace ha with ⟨b, hb, hae⟩
    by_cases hbk : HasKey.key b = HasKey.key (account.update_balance amount operation_type)
    · rw [hbk] at hae
      simp only [beq_self_eq_true, if_pos] at hae
      have hba : b = account := by
        apply List.inj_on_of_nodup_map hwa.2 hb haccmem
        rw [hbk, hkey]
      subst hae
      have hbalacc := hinv account haccmem
      rw [sumFor_append_one]
      rw [key_account_def] at hacckey
      cases operation_type <;>
        (simp [BankAccount.update_balance, hacckey, Operation.signed, hbalacc]
         try ring)
    · rw [if_neg (by simpa using hbk)] at hae
      subst hae
      rw [sumFor_append_one, if_neg]
      · simpa using hinv _ hb
      · rw [hkey] at hbk
        simp only [key_account_def] at hbk
        rw [key_account_def] at hacckey
        intro hc
        simp only at hc
        exact hbk (by omega)

theorem delete_operation_preserves {s s' : LedgerState} {operation_id : Nat}
    (hwf : ledgerWF s) (hinv : balInv s)
    (h : delete_operation s operation_id = (.ok (), s')) :
    ledgerWF s' ∧ balInv s' := by
  obtain ⟨hwa, hwo, href⟩ := hwf
  obtain ⟨op, hop, hcats, hops, hrest⟩ := delete_operation_ok h
  obtain ⟨hopmem, hopkey⟩ := Store.get_by_id_mem hop
  have hsum : ∀ aid,
      sumFor (s.operations.items.filter (fun y => HasKey.key y != operation_id)) aid
        = sumFor s.operations.items aid
          - (if op.bank_account_id = aid then op.signed else 0) := by
    intro aid
    rw [← hopkey]
    exact sumFor_remove hwo.2 hopmem aid
  rcases hrest with ⟨account, hacc, haccs⟩ | ⟨hacc, haccs⟩
  · obtain ⟨haccmem, hacckey⟩ := Store.get_by_id_mem hacc
    rw [key_account_def] at hacckey
    have hkey : HasKey.key (reverseBalance account op) = HasKey.key account := by
      cases hty : op.type <;> simp [reverseBalance, hty, key_account_def]
    refine ⟨⟨?_, ?_, ?_⟩, ?_⟩
    · rw [haccs]
      exact storeWF_replace hwa _
    · rw [hops]
      exact storeWF_filter hwo _
    · rw [hops, haccs]
      intro o ho
      exact href o (List.mem_filter.mp ho).1
    · intro a ha
      rw [haccs] at ha
      rw [hops]
      simp only
      rcases mem_map_replace ha with ⟨b, hb, hae⟩
      by_cases hbk : HasKey.key b = HasKey.key (reverseBalance account op)
      · rw [hbk] at hae
        simp only [beq_self_eq_true, if_pos] at hae
        have hba : b = account :=
          List.inj_on_of_nodup_map hwa.2 hb haccmem (hbk.trans hkey)
        subst hae
        have hbalacc := hinv account haccmem
        rw [hsum]
        cases hty : op.type <;>
          (simp [reverseBalance, hty, Operation.signed, hacckey, hbalacc]
           try ring)
      · rw [if_neg (by simpa using hbk)] at hae
        subst hae
        rw [hsum, if_neg, sub_zero]
        · exact hinv _ hb
        · rw [hkey] at hbk
          simp only [key_account_def] at hbk
          omega
  · refine ⟨⟨?_, ?_, ?_⟩, ?_⟩
    · rw [haccs]
      exact hwa
    · rw [hops]
      exact storeWF_filter hwo _
    · rw [hops, haccs]
      intro o ho
      exact href o (List.mem_filter.mp ho).1
    · intro a ha
      rw [haccs] at ha
      rw [hops]
      simp only
      rw [hsum, if_neg, sub_zero]
      · exact hinv a ha
      · have := Store.get_by_id_eq_none.mp hacc a ha
        simp only [key_account_def] at this
        omega

theorem runFacade_preserves {calls : List FacadeOp} {s s' : LedgerState}
    (hcalls : ∀ c ∈ calls, c.ledgerCall = true)
    (hwf : ledgerWF s) (hinv : balInv s)
    (hrun : runFacade calls s = some s') :
    ledgerWF s' ∧ balInv s' := by
  induction calls generalizing s with
  | nil =>
    simp only [runFacade, Option.some.injEq] at hrun
    subst hrun
    exact ⟨hwf, hinv⟩
  | cons c cs ih =>
    simp only [runFacade] at hrun
    cases hstep : stepFacade s c with
    | none =>
      rw [hstep] at hrun
      simp at hrun
    | some s1 =>
      rw [hstep] at hrun
      have hc := hcalls c (List.mem_cons_self c cs)
      have h1 : ledgerWF s1 ∧ balInv s1 := by
        cases c with
        | createAccount name bal today =>
          simp only [stepFacade] at hstep
          split at hstep
          · next heq =>
            injection hstep with h2
            subst h2
            exact create_account_preserves hwf hinv heq
          · simp at hstep
        | createOperation t aid amount d descr cid =>
          simp only [stepFacade] at hstep
          split at hstep
          · next heq =>
            injection hstep with h2
            subst h2
            exact create_operation_preserves hwf hinv heq
          · simp at hstep
        | deleteOperation oid =>
          simp only [stepFacade] at hstep
          split at hstep
          · next r s2 heq =>
            injection hstep with h2
            subst h2
            cases r
            exact delete_operation_preserves hwf hinv heq
          · simp at hstep
        | updateAccount a b => simp [FacadeOp.ledgerCall] at hc
        | deleteAccount a => simp [FacadeOp.ledgerCall] at hc
        | recalcBalance a => simp [FacadeOp.ledgerCall] at hc
        | createCategory a b => simp [FacadeOp.ledgerCall] at hc
        | updateCategory a b t => simp [FacadeOp.ledgerCall] at hc
        | deleteCategory a => simp [FacadeOp.ledgerCall] at hc
        | updateOperation a b d e f g => simp [FacadeOp.ledgerCall] at hc
      exact ih (fun d hd => hcalls d (List.mem_cons_of_mem _ hd)) h1.1 h1.2 hrun

theorem recalculate_balance_of_balInv {s : LedgerState} {account_id : Nat}
    {acc : BankAccount} (hinv : balInv s)
    (hacc : s.accounts.get_by_id account_id = some acc) :
    (recalculate_balance s account_id).1 = .ok acc.balance := by
  obtain ⟨hmem, hkeyeq⟩ := Store.get_by_id_mem hacc
  rw [key_account_def] at hkeyeq
  have hfold : balanceFold (s.operations.get_by_account_id account_id)
      = acc.balance := by
    rw [balanceFold_eq]
    have hb := hinv acc hmem
    rw [hkeyeq] at hb
    simpa [sumFor, Store.get_by_account_id] using hb.symm
  have hupd : s.accounts.get_by_id acc.id = some acc := by
    rw [hkeyeq]
    exact hacc
  unfold recalculate_balance
  rw [hacc]
  simp only
  rw [@Store.update_ok BankAccount _ s.accounts
    ⟨acc.id, acc.name, balanceFold (s.operations.get_by_account_id account_id)⟩
    acc hupd]
  simp [hfold]

/-- Concrete scenario for claim C1: create "Main" with opening balance 1000,
add income 2000 and expense 500, then delete the expense. -/
def c1calls : List FacadeOp :=
  [.createAccount "Main" 1000 0,
   .createOperation .income 1 2000 0 none none,
   .createOperation .expense 1 500 0 none none,
   .deleteOperation 3]

/-- The ledger after `c1calls`: balance back to 3000, two operations left. -/
def c1After : LedgerState :=
  ⟨⟨[⟨1, "Main", 3000⟩], 2⟩, ⟨[], 1⟩,
   ⟨[⟨1, .income, 1, 1000, 0, some "Начальный баланс", none⟩,
     ⟨2, .income, 1, 2000, 0, none, none⟩], 4⟩⟩

/-- Claim C1: for every account and every sequence of successful facade
calls that create or delete operations (create_account, create_operation,
delete_operation), starting from a well-formed state satisfying the balance
invariant, `recalculate_balance` afterwards returns exactly the account's
incrementally maintained `balance` field. -/
theorem C1_balance_derivation {calls : List FacadeOp} {s s' : LedgerState}
    {account_id : Nat} {acc : BankAccount}
    (hcalls : ∀ c ∈ calls, c.ledgerCall = true)
    (hwf : ledgerWF s) (hinv : balInv s)
    (hrun : runFacade calls s = some s')
    (hacc : s'.accounts.get_by_id account_id = some acc) :
    (recalculate_balance s' account_id).1 = .ok acc.balance := by
  obtain ⟨-, hinv1⟩ := runFacade_preserves hcalls hwf hinv hrun
  exact recalculate_balance_of_balInv hinv1 hacc

/-- Witness for C1 at the concrete scenario of the spec (§8): after the
create/create/create/delete sequence the stored balance is 3000 and
recalculation returns exactly it. -/
theorem C1_balance_derivation_witness :
    runFacade c1calls initialState = some c1After ∧
    (recalculate_balance c1After 1).1 = .ok (3000 : Money) :=
  ⟨by decide, by
    have h := @C1_balance_derivation c1calls initialState c1After 1
      ⟨1, "Main", 3000⟩ (by decide) (by decide) (by decide) (by decide)
      (by decide)
    exact h⟩

/-! ### Claim C9 — recalculation idempotence -/

/-- The account record `recalculate_balance` writes back: same id and name,
balance overwritten with the fold over the account's operations. -/
def recalcAccount (s : LedgerState) (account_id : Nat) (acc : BankAccount) :
    BankAccount :=
  ⟨acc.id, acc.name, balanceFold (s.operations.get_by_account_id account_id)⟩

theorem recalculate_balance_eq {s : LedgerState} {account_id : Nat}
    {acc : BankAccount} (hacc : s.accounts.get_by_id account_id = some acc) :
    recalculate_balance s account_id =
      (.ok (balanceFold (s.operations.get_by_account_id account_id)),
       { s with accounts := ⟨s.accounts.items.map (fun y =>
           if HasKey.key y == HasKey.key (recalcAccount s account_id acc)
           then recalcAccount s account_id acc else y), s.accounts.next_id⟩ }) := by
  obtain ⟨hmem, hkeyeq⟩ := Store.get_by_id_mem hacc
  rw [key_account_def] at hkeyeq
  have hupd : s.accounts.get_by_id acc.id = some acc := by
    rw [hkeyeq]
    exact hacc
  unfold recalculate_balance
  rw [hacc]
  simp only
  unfold recalcAccount
  rw [@Store.update_ok BankAccount _ s.accounts
    ⟨acc.id, acc.name, balanceFold (s.operations.get_by_account_id account_id)⟩
    acc hupd]

/-- Claim C9: for every store state and every account id present in it,
`recalculate_balance` called twice consecutively returns the same value both
times, the second call leaves the state of the first call untouched, and the
account's stored balance equals that value. -/
theorem C9_recalculation_idempotent {s : LedgerState} {account_id : Nat}
    {acc : BankAccount} (hacc : s.accounts.get_by_id account_id = some acc) :
    ∃ v s1, recalculate_balance s account_id = (.ok v, s1) ∧
      recalculate_balance s1 account_id = (.ok v, s1) ∧
      ∃ acc1, s1.accounts.get_by_id account_id = some acc1 ∧
        acc1.balance = v := by
  obtain ⟨hmem, hkeyeq⟩ := Store.get_by_id_mem hacc
  rw [key_account_def] at hkeyeq
  have h1 := recalculate_balance_eq hacc
  set S1 : LedgerState :=
    { s with accounts := ⟨s.accounts.items.map (fun y =>
        if HasKey.key y == HasKey.key (recalcAccount s account_id acc)
        then recalcAccount s account_id acc else y), s.accounts.next_id⟩ }
    with hS1
  have hacc1 : S1.accounts.get_by_id account_id
      = some (recalcAccount s account_id acc) := by
    rw [hS1]
    exact find?_map_replace_self hacc (by
      rw [key_account_def]
      exact hkeyeq)
  have h2 := recalculate_balance_eq hacc1
  have hops : S1.operations = s.operations := by
    rw [hS1]
  have hx : recalcAccount S1 account_id (recalcAccount s account_id acc)
      = recalcAccount s account_id acc := by
    rw [hS1]
    rfl
  rw [hops, hx] at h2
  have hsame : S1.accounts.items.map (fun y =>
      if HasKey.key y == HasKey.key (recalcAccount s account_id acc)
      then recalcAccount s account_id acc else y) = S1.accounts.items := by
    rw [hS1]
    exact map_replace_idem
  rw [hsame] at h2
  exact ⟨_, S1, h1, h2, recalcAccount s account_id acc, hacc1, rfl⟩

/-- A small state for the C9 witness: one account whose stored balance (7)
differs from its operation history (one income of 5). -/
def c9state : LedgerState :=
  ⟨⟨[⟨1, "A", 7⟩], 2⟩, ⟨[], 1⟩, ⟨[⟨1, .income, 1, 5, 0, none, none⟩], 2⟩⟩

/-- Witness for C9 at a concrete store state. -/
theorem C9_recalculation_idempotent_witness :
    ∃ v s1, recalculate_balance c9state 1 = (.ok v, s1) ∧
      recalculate_balance s1 1 = (.ok v, s1) ∧
      ∃ acc1, s1.accounts.get_by_id 1 = some acc1 ∧ acc1.balance = v :=
  @C9_recalculation_idempotent c9state 1 ⟨1, "A", 7⟩ (by decide)

/-! ### Claim C7 — delete_account refuses while operations reference it -/

/-- Claim C7: whenever at least one stored operation references the account,
`delete_account` fails with InvalidState and the whole state is unchanged
(no cascade, no deletion). -/
theorem C7_delete_account_refused {s : LedgerState} {account_id : Nat}
    {op : Operation} (hop : op ∈ s.operations.items)
    (href : op.bank_account_id = account_id) :
    delete_account s account_id = (.error .invalidState, s) := by
  unfold delete_account
  rw [if_pos]
  intro hnil
  rw [Store.get_by_account_id, List.filter_eq_nil_iff] at hnil
  exact hnil op hop (by simp [href])

/-- Witness for C7: the account of `c9state` is referenced by one operation,
so deleting it is refused and the state survives unchanged. -/
theorem C7_delete_account_refused_witness :
    delete_account c9state 1 = (.error .invalidState, c9state) :=
  @C7_delete_account_refused c9state 1 ⟨1, .income, 1, 5, 0, none, none⟩
    (by decide) (by decide)

/-! ### Claim C8 — delete_operation semantics -/

/-- Claim C8, conjunct for each case of `delete_operation`: NotFound and no
change when the operation id is absent; when present and the owning account
exists, the opposite sign of the amount is applied to that account and the
record is removed; when present but the account is gone, the record is
removed and the account store is untouched (no failure). -/
theorem C8_delete_operation_cases :
    (∀ (s : LedgerState) (oid : Nat),
      s.operations.get_by_id oid = none →
        delete_operation s oid = (.error .notFound, s)) ∧
    (∀ (s : LedgerState) (oid : Nat) (op : Operation) (acc : BankAccount),
      s.operations.get_by_id oid = some op →
      s.accounts.get_by_id op.bank_account_id = some acc →
        ∃ s1, delete_operation s oid = (.ok (), s1) ∧
          s1.operations.items
            = s.operations.items.filter (fun y => HasKey.key y != oid) ∧
          s1.operations.next_id = s.operations.next_id ∧
          s1.accounts.get_by_id op.bank_account_id
            = some (reverseBalance acc op) ∧
          (reverseBalance acc op).balance = acc.balance - op.signed ∧
          s1.accounts.next_id = s.accounts.next_id ∧
          s1.categories = s.categories) ∧
    (∀ (s : LedgerState) (oid : Nat) (op : Operation),
      s.operations.get_by_id oid = some op →
      s.accounts.get_by_id op.bank_account_id = none →
        ∃ s1, delete_operation s oid = (.ok (), s1) ∧
          s1.operations.items
            = s.operations.items.filter (fun y => HasKey.key y != oid) ∧
          s1.operations.next_id = s.operations.next_id ∧
          s1.accounts = s.accounts ∧
          s1.categories = s.categories) := by
  refine ⟨?_, ?_, ?_⟩
  · intro s oid hnone
    unfold delete_operation
    rw [hnone]
  · intro s oid op acc hop hacc
    have hdel := @Store.delete_ok Operation _ s.operations oid op hop
    have hkey : HasKey.key (reverseBalance acc op) = HasKey.key acc := by
      cases hty : op.type <;> simp [reverseBalance, hty, key_account_def]
    obtain ⟨haccmem, hacckey⟩ := Store.get_by_id_mem hacc
    have hupd : s.accounts.get_by_id (HasKey.key (reverseBalance acc op))
        = some acc := by
      rw [hkey, hacckey]
      exact hacc
    have hrun : delete_operation s oid = (.ok (),
        { accounts := ⟨s.accounts.items.map (fun y =>
            if HasKey.key y == HasKey.key (reverseBalance acc op)
            then reverseBalance acc op else y), s.accounts.next_id⟩,
          categories := s.categories,
          operations := ⟨s.operations.items.filter
            (fun y => HasKey.key y != oid), s.operations.next_id⟩ }) := by
      unfold delete_operation
      simp only [hop, hacc]
      cases hty : op.type
      · simp only []
        rw [show ({ acc with balance := acc.balance - op.amount }
              : BankAccount) = reverseBalance acc op from by
            simp [reverseBalance, hty]]
        rw [@Store.update_ok BankAccount _ s.accounts
          (reverseBalance acc op) acc hupd]
        simp only []
        rw [hdel]
      · simp only []
        rw [show ({ acc with balance := acc.balance + op.amount }
              : BankAccount) = reverseBalance acc op from by
            simp [reverseBalance, hty]]
        rw [@Store.update_ok BankAccount _ s.accounts
          (reverseBalance acc op) acc hupd]
        simp only []
        rw [hdel]
    refine ⟨⟨⟨s.accounts.items.map (fun y =>
          if HasKey.key y == HasKey.key (reverseBalance acc op)
          then reverseBalance acc op else y), s.accounts.next_id⟩,
        s.categories,
        ⟨s.operations.items.filter (fun y => HasKey.key y != oid),
          s.operations.next_id⟩⟩,
      hrun, rfl, rfl, ?_, ?_, rfl, rfl⟩
    · exact find?_map_replace_self hacc (hkey.trans hacckey)
    · cases hty : op.type <;>
        (simp [reverseBalance, Operation.signed, hty]
         try ring)
  · intro s oid op hop hacc
    have hdel := @Store.delete_ok Operation _ s.operations oid op hop
    refine ⟨⟨s.accounts, s.categories,
        ⟨s.operations.items.filter (fun y => HasKey.key y != oid),
          s.operations.next_id⟩⟩, ?_, rfl, rfl, rfl, rfl⟩
    unfold delete_operation
    simp only [hop, hacc]
    rw [hdel]

/-- One account with one income operation of 5 referencing it. -/
def c8state : LedgerState :=
  ⟨⟨[⟨1, "A", 5⟩], 2⟩, ⟨[], 1⟩, ⟨[⟨1, .income, 1, 5, 0, none, none⟩], 2⟩⟩

/-- An operation whose owning account (id 7) is absent from the store. -/
def c8orphan : LedgerState :=
  ⟨⟨[], 1⟩, ⟨[], 1⟩, ⟨[⟨1, .income, 7, 5, 0, none, none⟩], 2⟩⟩

/-- Witness for C8: all three cases at concrete stores. -/
theorem C8_delete_operation_cases_witness :
    delete_operation initialState 1 = (.error .notFound, initialState) ∧
    (∃ s1, delete_operation c8state 1 = (.ok (), s1) ∧
      s1.operations.items
        = c8state.operations.items.filter (fun y => HasKey.key y != 1) ∧
      s1.operations.next_id = c8state.operations.next_id ∧
      s1.accounts.get_by_id
          (Operation.bank_account_id ⟨1, .income, 1, 5, 0, none, none⟩)
        = some (reverseBalance ⟨1, "A", 5⟩ ⟨1, .income, 1, 5, 0, none, none⟩) ∧
      (reverseBalance ⟨1, "A", 5⟩ ⟨1, .income, 1, 5, 0, none, none⟩).balance
        = (5 : Money) - Operation.signed ⟨1, .income, 1, 5, 0, none, none⟩ ∧
      s1.accounts.next_id = c8state.accounts.next_id ∧
      s1.categories = c8state.categories) ∧
    (∃ s1, delete_operation c8orphan 1 = (.ok (), s1) ∧
      s1.operations.items
        = c8orphan.operations.items.filter (fun y => HasKey.key y != 1) ∧
      s1.operations.next_id = c8orphan.operations.next_id ∧
      s1.accounts = c8orphan.accounts ∧
      s1.categories = c8orphan.categories) :=
  ⟨C8_delete_operation_cases.1 initialState 1 (by decide),
   C8_delete_operation_cases.2.1 c8state 1 ⟨1, .income, 1, 5, 0, none, none⟩
     ⟨1, "A", 5⟩ (by decide) (by decide),
   C8_delete_operation_cases.2.2 c8orphan 1 ⟨1, .income, 7, 5, 0, none, none⟩
     (by decide) (by decide)⟩

/-! ### Claim C2 — create_operation fails atomically -/

theorem create_operation_rest_invalid {s : LedgerState} {t : OperationType}
    {aid : Nat} {amount : Money} {d : Nat} {descr : Option String}
    {cid : Option Nat} {acct : BankAccount} (ham : amount ≤ 0) :
    create_operation_rest s t aid amount d descr cid acct
      = (.error .validationFailed, s) := by
  unfold create_operation_rest
  rw [if_pos ham]

/-- Claim C2: each validation failure of `create_operation` — missing
account (NotFound), missing category (NotFound), type mismatch
(InvalidState), non-positive amount (ValidationFailed) — returns with the
entire state unchanged: no record stored, no balance changed, no id hint
moved. -/
theorem C2_create_operation_failure_atomicity :
    (∀ (s : LedgerState) (t : OperationType) (aid : Nat) (amount : Money)
        (d : Nat) (descr : Option String) (cid : Option Nat),
      s.accounts.get_by_id aid = none →
        create_operation s t aid amount d descr cid
          = (.error .notFound, s)) ∧
    (∀ (s : LedgerState) (t : OperationType) (aid : Nat) (amount : Money)
        (d : Nat) (descr : Option String) (c : Nat) (acc : BankAccount),
      s.accounts.get_by_id aid = some acc → c ≠ 0 →
      s.categories.get_by_id c = none →
        create_operation s t aid amount d descr (some c)
          = (.error .notFound, s)) ∧
    (∀ (s : LedgerState) (t : OperationType) (aid : Nat) (amount : Money)
        (d : Nat) (descr : Option String) (c : Nat) (acc : BankAccount)
        (cat : Category),
      s.accounts.get_by_id aid = some acc → c ≠ 0 →
      s.categories.get_by_id c = some cat → cat.type ≠ t →
        create_operation s t aid amount d descr (some c)
          = (.error .invalidState, s)) ∧
    (∀ (s : LedgerState) (t : OperationType) (aid : Nat) (amount : Money)
        (d : Nat) (descr : Option String) (cid : Option Nat)
        (acc : BankAccount),
      s.accounts.get_by_id aid = some acc →
      (∀ c, cid = some c → c ≠ 0 →
        ∃ cat, s.categories.get_by_id c = some cat ∧ cat.type = t) →
      amount ≤ 0 →
        create_operation s t aid amount d descr cid
          = (.error .validationFailed, s)) := by
  refine ⟨?_, ?_, ?_, ?_⟩
  · intro s t aid amount d descr cid hnone
    unfold create_operation
    rw [hnone]
  · intro s t aid amount d descr c acc hacc hc0 hcat
    unfold create_operation
    simp only [hacc, truthyNat]
    rw [if_pos (by simpa using hc0)]
    simp only [Option.getD_some, hcat]
  · intro s t aid amount d descr c acc cat hacc hc0 hcat hty
    unfold create_operation
    simp only [hacc, truthyNat]
    rw [if_pos (by simpa using hc0)]
    simp only [Option.getD_some, hcat]
    rw [if_pos hty]
  · intro s t aid amount d descr cid acc hacc hcheck ham
    unfold create_operation
    simp only [hacc]
    cases cid with
    | none =>
      simp only [truthyNat, Bool.false_eq_true, if_false]
      exact create_operation_rest_invalid ham
    | some c =>
      by_cases hc0 : c = 0
      · subst hc0
        simp only [truthyNat]
        norm_num
        exact create_operation_rest_invalid ham
      · obtain ⟨cat, hcat, htyeq⟩ := hcheck c rfl hc0
        simp only [truthyNat]
        rw [if_pos (by simpa using hc0)]
        simp only [Option.getD_some, hcat]
        rw [if_neg (by simp [htyeq])]
        exact create_operation_rest_invalid ham

/-- Account 1 with balance 0 plus the Expense category "Groceries" (id 1):
the reference state for the C2 witness. -/
def c2state : LedgerState :=
  ⟨⟨[⟨1, "A", 0⟩], 2⟩, ⟨[⟨1, .expense, "Groceries"⟩], 2⟩, ⟨[], 1⟩⟩

/-- Witness for C2: the four failure modes at concrete inputs, including the
spec's Groceries scenario (Income operation on an Expense category). -/
theorem C2_create_operation_failure_atomicity_witness :
    create_operation initialState .income 1 5 0 none none
      = (.error .notFound, initialState) ∧
    create_operation c2state .income 1 5 0 none (some 9)
      = (.error .notFound, c2state) ∧
    create_operation c2state .income 1 5 0 none (some 1)
      = (.error .invalidState, c2state) ∧
    create_operation c2state .income 1 0 0 none none
      = (.error .validationFailed, c2state) :=
  ⟨C2_create_operation_failure_atomicity.1 initialState .income 1 5 0 none
     none (by decide),
   C2_create_operation_failure_atomicity.2.1 c2state .income 1 5 0 none 9
     ⟨1, "A", 0⟩ (by decide) (by decide) (by decide),
   C2_create_operation_failure_atomicity.2.2.1 c2state .income 1 5 0 none 1
     ⟨1, "A", 0⟩ ⟨1, .expense, "Groceries"⟩ (by decide) (by decide)
     (by decide) (by decide),
   C2_create_operation_failure_atomicity.2.2.2 c2state .income 1 0 0 none
     none ⟨1, "A", 0⟩ (by decide) (fun c hc => nomatch hc) (by decide)⟩

/-! ### Claim C10 — category_id = 0 bypasses the category checks -/

/-- Claim C10: with `category_id = 0` the `if category_id:` guard of
`create_operation` is falsy, so no category lookup or type check happens at
all: the call succeeds against an arbitrary category store (no hypothesis
on it), persists the operation with `category_id = 0` and updates the
account balance; the import application loop skips its category-resolution
check for `category_id = 0` the same way. -/
theorem C10_zero_category_id_bypass :
    (∀ (s : LedgerState) (t : OperationType) (aid : Nat) (amount : Money)
        (d : Nat) (descr : Option String) (acc : BankAccount),
      s.accounts.get_by_id aid = some acc → 0 < amount →
      (∀ y ∈ s.operations.items, HasKey.key y ≠ s.operations.next_id) →
        ∃ op s1, create_operation s t aid amount d descr (some 0)
            = (.ok op, s1) ∧
          op = ⟨s.operations.next_id, t, aid, amount, d, descr, some 0⟩ ∧
          op.category_id = some 0 ∧
          s1.operations.items = s.operations.items ++ [op] ∧
          s1.accounts.get_by_id aid = some (acc.update_balance amount t) ∧
          s1.categories = s.categories) ∧
    (∀ (s : LedgerState) (op : Operation) (acc : BankAccount),
      op.category_id = some 0 →
      s.operations.get_by_id op.id = none →
      s.accounts.get_by_id op.bank_account_id = some acc →
        ∃ s1, import_one_operation s op = (true, s1) ∧
          s1.operations.items = s.operations.items ++ [op] ∧
          s1.accounts.get_by_id op.bank_account_id
            = some (acc.update_balance op.amount op.type) ∧
          s1.categories = s.categories) := by
  constructor
  · intro s t aid amount d descr acc hacc hpos hfresh
    obtain ⟨haccmem, hacckey⟩ := Store.get_by_id_mem hacc
    have hkey : HasKey.key (acc.update_balance amount t) = aid := by
      cases t <;> simpa [BankAccount.update_balance, key_account_def] using hacckey
    have hupdok := @Store.update_ok BankAccount _ s.accounts
      (acc.update_balance amount t) acc (by rw [hkey]; exact hacc)
    have haddok := @Store.add_ok Operation _ s.operations
      ⟨s.operations.next_id, t, aid, amount, d, descr, some 0⟩ hfresh
    have hrun : create_operation s t aid amount d descr (some 0)
        = (.ok ⟨s.operations.next_id, t, aid, amount, d, descr, some 0⟩,
           ⟨⟨s.accounts.items.map (fun y =>
               if HasKey.key y == HasKey.key (acc.update_balance amount t)
               then acc.update_balance amount t else y), s.accounts.next_id⟩,
             s.categories,
             ⟨s.operations.items
                ++ [⟨s.operations.next_id, t, aid, amount, d, descr, some 0⟩],
              max s.operations.next_id (s.operations.next_id + 1)⟩⟩) := by
      unfold create_operation
      simp only [hacc, truthyNat]
      rw [if_neg (by decide)]
      unfold create_operation_rest
      rw [if_neg (not_le.mpr hpos)]
      simp only [Store.get_next_id]
      rw [hupdok]
      simp only []
      rw [haddok]
      simp only []
      rfl
    refine ⟨_, _, hrun, rfl, rfl, rfl, ?_, rfl⟩
    exact find?_map_replace_self hacc hkey
  · intro s op acc hcid hdup hacc
    obtain ⟨haccmem, hacckey⟩ := Store.get_by_id_mem hacc
    have hkey : HasKey.key (acc.update_balance op.amount op.type)
        = op.bank_account_id := by
      cases hty : op.type <;>
        simpa [BankAccount.update_balance, hty, key_account_def] using hacckey
    have hfresh : ∀ y ∈ s.operations.items, HasKey.key y ≠ HasKey.key op :=
      Store.get_by_id_eq_none.mp hdup
    have haddok := @Store.add_ok Operation _ s.operations op hfresh
    have hupdok := @Store.update_ok BankAccount _ s.accounts
      (acc.update_balance op.amount op.type) acc (by rw [hkey]; exact hacc)
    have hrun : import_one_operation s op
        = (true,
           ⟨⟨s.accounts.items.map (fun y =>
               if HasKey.key y
                   == HasKey.key (acc.update_balance op.amount op.type)
               then acc.update_balance op.amount op.type else y),
             s.accounts.next_id⟩,
             s.categories,
             ⟨s.operations.items ++ [op],
              max s.operations.next_id (HasKey.key op + 1)⟩⟩) := by
      unfold import_one_operation
      simp only [hdup, hacc, hcid, truthyNat]
      rw [if_neg (by decide)]
      rw [haddok]
      simp only []
      rw [hupdok]
    refine ⟨_, hrun, rfl, ?_, rfl⟩
    exact find?_map_replace_self hacc hkey

/-- Account 1 present, category store empty — the C10 reference state. -/
def c10state : LedgerState :=
  ⟨⟨[⟨1, "A", 0⟩], 2⟩, ⟨[], 1⟩, ⟨[], 1⟩⟩

/-- Witness for C10: both the facade call and the import loop accept
`category_id = 0` against an empty category store. -/
theorem C10_zero_category_id_bypass_witness :
    (∃ op s1, create_operation c10state .income 1 5 0 none (some 0)
        = (.ok op, s1) ∧
      op = ⟨c10state.operations.next_id, .income, 1, 5, 0, none, some 0⟩ ∧
      op.category_id = some 0 ∧
      s1.operations.items = c10state.operations.items ++ [op] ∧
      s1.accounts.get_by_id 1
        = some (BankAccount.update_balance ⟨1, "A", 0⟩ 5 .income) ∧
      s1.categories = c10state.categories) ∧
    (∃ s1, import_one_operation c10state ⟨7, .expense, 1, 3, 0, none, some 0⟩
        = (true, s1) ∧
      s1.operations.items
        = c10state.operations.items ++ [⟨7, .expense, 1, 3, 0, none, some 0⟩] ∧
      s1.accounts.get_by_id 1
        = some (BankAccount.update_balance ⟨1, "A", 0⟩ 3 .expense) ∧
      s1.categories = c10state.categories) :=
  ⟨C10_zero_category_id_bypass.1 c10state .income 1 5 0 none ⟨1, "A", 0⟩
     (by decide) (by decide) (by decide),
   C10_zero_category_id_bypass.2 c10state ⟨7, .expense, 1, 3, 0, none, some 0⟩
     ⟨1, "A", 0⟩ (by decide) (by decide) (by decide)⟩

/-! ### Claim C6 — update_operation frame (corrected) -/

/-- One account and one income operation of amount 5 — the C6 state. -/
def c6state : LedgerState :=
  ⟨⟨[⟨1, "A", 5⟩], 2⟩, ⟨[], 1⟩, ⟨[⟨1, .income, 1, 5, 0, none, none⟩], 2⟩⟩

/-- Counterexample to C6 as stated: supplying `amount = 0` (a supplied
field) does not replace the amount — `Decimal('0')` is falsy in
`amount if amount else operation.amount`, so the old amount 5 survives,
while the claim as stated requires the record's amount to become 0. -/
theorem C6_counterexample :
    (update_operation c6state 1 none (some 0) none none none).1
      = .ok ⟨1, .income, 1, 5, 0, none, none⟩ ∧
    (update_operation c6state 1 none (some 0) none none none).1
      ≠ .ok ⟨1, .income, 1, 0, 0, none, none⟩ :=
  ⟨rfl, by
    intro h
    rw [show (update_operation c6state 1 none (some 0) none none none).1
        = .ok ⟨1, .income, 1, 5, 0, none, none⟩ from rfl] at h
    exact absurd (Except.ok.inj h) (by decide)⟩

/-- Claim C6 as amended: `update_operation` replaces each supplied field —
except that a supplied amount of 0 is treated like an unsupplied one
(Python truthiness) and keeps the old amount — keeps every unsupplied
field, and leaves the account store, the category store and the operation
id hint entirely unchanged (in particular it never re-derives the owning
account's balance). -/
theorem C6_update_operation_amended :
    ∀ (s : LedgerState) (oid : Nat) (t1 : Option OperationType)
      (a1 : Option Money) (d1 : Option Nat) (de1 : Option String)
      (c1 : Option Nat) (op : Operation),
      s.operations.get_by_id oid = some op →
        ∃ upd s1, update_operation s oid t1 a1 d1 de1 c1 = (.ok upd, s1) ∧
          s1.accounts = s.accounts ∧
          s1.categories = s.categories ∧
          s1.operations.next_id = s.operations.next_id ∧
          s1.operations.items = s.operations.items.map (fun y =>
            if HasKey.key y == HasKey.key upd then upd else y) ∧
          upd.id = op.id ∧
          upd.bank_account_id = op.bank_account_id ∧
          (∀ t, t1 = some t → upd.type = t) ∧
          (t1 = none → upd.type = op.type) ∧
          (∀ a, a1 = some a → a ≠ 0 → upd.amount = a) ∧
          ((a1 = none ∨ a1 = some 0) → upd.amount = op.amount) ∧
          (∀ d2, d1 = some d2 → upd.date = d2) ∧
          (d1 = none → upd.date = op.date) ∧
          (∀ de, de1 = some de → upd.description = some de) ∧
          (de1 = none → upd.description = op.description) ∧
          (∀ c, c1 = some c → upd.category_id = some c) ∧
          (c1 = none → upd.category_id = op.category_id) := by
  intro s oid t1 a1 d1 de1 c1 op hop
  obtain ⟨hmem, hkeyeq⟩ := Store.get_by_id_mem hop
  have hget : s.operations.get_by_id op.id = some op := by
    rw [key_operation_def] at hkeyeq
    rw [hkeyeq]
    exact hop
  have hupdok := @Store.update_ok Operation _ s.operations
    ⟨op.id, t1.getD op.type, op.bank_account_id,
      a1.elim op.amount (fun a => if a = 0 then op.amount else a),
      d1.getD op.date,
      de1.elim op.description some,
      c1.elim op.category_id some⟩ op hget
  have hrun : update_operation s oid t1 a1 d1 de1 c1
      = (.ok ⟨op.id, t1.getD op.type, op.bank_account_id,
          a1.elim op.amount (fun a => if a = 0 then op.amount else a),
          d1.getD op.date,
          de1.elim op.description some,
          c1.elim op.category_id some⟩,
         ⟨s.accounts, s.categories,
          ⟨s.operations.items.map (fun y =>
            if HasKey.key y == HasKey.key
                (⟨op.id, t1.getD op.type, op.bank_account_id,
                  a1.elim op.amount (fun a => if a = 0 then op.amount else a),
                  d1.getD op.date,
                  de1.elim op.description some,
                  c1.elim op.category_id some⟩ : Operation) then
              ⟨op.id, t1.getD op.type, op.bank_account_id,
                a1.elim op.amount (fun a => if a = 0 then op.amount else a),
                d1.getD op.date,
                de1.elim op.description some,
                c1.elim op.category_id some⟩
            else y), s.operations.next_id⟩⟩) := by
    unfold update_operation
    simp only [hop]
    rw [hupdok]
  refine ⟨_, _, hrun, rfl, rfl, rfl, rfl, rfl, rfl, ?_, ?_, ?_, ?_, ?_, ?_,
    ?_, ?_, ?_, ?_⟩
  · intro t ht
    subst ht
    rfl
  · intro ht
    subst ht
    rfl
  · intro a ha hne
    subst ha
    simp [Option.elim, hne]
  · intro ha
    rcases ha with ha | ha <;> subst ha <;> simp [Option.elim]
  · intro d2 hd
    subst hd
    rfl
  · intro hd
    subst hd
    rfl
  · intro de hde
    subst hde
    rfl
  · intro hde
    subst hde
    rfl
  · intro c hc
    subst hc
    rfl
  · intro hc
    subst hc
    rfl

/-- Witness for the amended C6 at concrete inputs (all fields supplied,
amount nonzero). -/
theorem C6_update_operation_amended_witness :
    ∃ upd s1, update_operation c6state 1 (some .expense) (some 7) (some 9)
        (some "x") (some 2) = (.ok upd, s1) ∧
      s1.accounts = c6state.accounts ∧
      s1.categories = c6state.categories ∧
      s1.operations.next_id = c6state.operations.next_id ∧
      s1.operations.items = c6state.operations.items.map (fun y =>
        if HasKey.key y == HasKey.key upd then upd else y) ∧
      upd.id = Operation.id ⟨1, .income, 1, 5, 0, none, none⟩ ∧
      upd.bank_account_id
        = Operation.bank_account_id ⟨1, .income, 1, 5, 0, none, none⟩ ∧
      (∀ t, (some OperationType.expense : Option OperationType) = some t →
        upd.type = t) ∧
      ((some OperationType.expense : Option OperationType) = none →
        upd.type = Operation.type ⟨1, .income, 1, 5, 0, none, none⟩) ∧
      (∀ a, (some 7 : Option Money) = some a → a ≠ 0 → upd.amount = a) ∧
      (((some 7 : Option Money) = none ∨ (some 7 : Option Money) = some 0) →
        upd.amount = Operation.amount ⟨1, .income, 1, 5, 0, none, none⟩) ∧
      (∀ d2, (some 9 : Option Nat) = some d2 → upd.date = d2) ∧
      ((some 9 : Option Nat) = none →
        upd.date = Operation.date ⟨1, .income, 1, 5, 0, none, none⟩) ∧
      (∀ de, (some "x" : Option String) = some de →
        upd.description = some de) ∧
      ((some "x" : Option String) = none →
        upd.description = Operation.description ⟨1, .income, 1, 5, 0, none, none⟩) ∧
      (∀ c, (some 2 : Option Nat) = some c → upd.category_id = some c) ∧
      ((some 2 : Option Nat) = none →
        upd.category_id = Operation.category_id ⟨1, .income, 1, 5, 0, none, none⟩) :=
  C6_update_operation_amended c6state 1 (some .expense) (some 7) (some 9)
    (some "x") (some 2) ⟨1, .income, 1, 5, 0, none, none⟩ (by decide)

/-! ### Claim C4 — category reference integrity (corrected) -/

/-- The category check of one operation as the claim amended states it: a
non-null, nonzero `category_id` must resolve to a live category of the
operation's type (`category_id = 0` is a dangling value `create_operation`
itself can store, see C10). -/
def opCatOk (cats : Store Category) (op : Operation) : Bool :=
  match op.category_id with
  | none => true
  | some cid =>
    if cid = 0 then true
    else
      match cats.get_by_id cid with
      | some cat => cat.type == op.type
      | none => false

/-- The amended invariant over a whole state. -/
abbrev catOk (s : LedgerState) : Prop :=
  ∀ op ∈ s.operations.items, opCatOk s.categories op = true

/-- The category check exactly as claim C4 states it: every non-null
`category_id` resolves to a live category of matching type. -/
def opCatStrict (cats : Store Category) (op : Operation) : Bool :=
  match op.category_id with
  | none => true
  | some cid =>
    match cats.get_by_id cid with
    | some cat => cat.type == op.type
    | none => false

/-- Claim C4's invariant, as stated. -/
abbrev catStrict (s : LedgerState) : Prop :=
  ∀ op ∈ s.operations.items, opCatStrict s.categories op = true

theorem find?_append_some {α : Type} {p : α → Bool} {l1 l2 : List α} {x : α}
    (h : l1.find? p = some x) : (l1 ++ l2).find? p = some x := by
  induction l1 with
  | nil => simp at h
  | cons a t ih =>
    simp only [List.cons_append]
    by_cases hp : p a = true
    · rw [List.find?_cons_of_pos _ hp] at h ⊢
      exact h
    · rw [List.find?_cons_of_neg _ hp] at h ⊢
      exact ih h

theorem update_account_frame {s s' : LedgerState} {account_id : Nat}
    {name : String} {acc : BankAccount}
    (h : update_account s account_id name = (.ok acc, s')) :
    s'.categories = s.categories ∧ s'.operations = s.operations := by
  unfold update_account at h
  split at h
  · simp at h
  next account hacc =>
    simp only [] at h
    split at h
    · simp at h
    next accounts1 hupd =>
      simp only [Prod.mk.injEq, Except.ok.injEq] at h
      obtain ⟨-, rfl⟩ := h
      exact ⟨rfl, rfl⟩

theorem delete_account_frame {s s' : LedgerState} {account_id : Nat}
    (h : delete_account s account_id = (.ok (), s')) :
    s'.categories = s.categories ∧ s'.operations = s.operations := by
  unfold delete_account at h
  split at h
  · simp at h
  split at h
  · simp at h
  next accounts1 hdel =>
    simp only [Prod.mk.injEq, Except.ok.injEq] at h
    obtain ⟨-, rfl⟩ := h
    exact ⟨rfl, rfl⟩

theorem recalculate_balance_frame {s s' : LedgerState} {account_id : Nat}
    {v : Money} (h : recalculate_balance s account_id = (.ok v, s')) :
    s'.categories = s.categories ∧ s'.operations = s.operations := by
  cases hacc : s.accounts.get_by_id account_id with
  | none =>
    unfold recalculate_balance at h
    rw [hacc] at h
    simp at h
  | some acc =>
    rw [recalculate_balance_eq hacc] at h
    simp only [Prod.mk.injEq, Except.ok.injEq] at h
    obtain ⟨-, rfl⟩ := h
    exact ⟨rfl, rfl⟩

theorem create_category_shape {s s' : LedgerState} {name : String}
    {category_type : OperationType} {cat : Category}
    (h : create_category s name category_type = (.ok cat, s')) :
    s'.operations = s.operations ∧
    s'.categories = ⟨s.categories.items ++ [cat],
      max s.categories.next_id (HasKey.key cat + 1)⟩ := by
  unfold create_category at h
  split at h
  · simp at h
  simp only [] at h
  split at h
  · simp at h
  next cats1 hadd =>
    obtain ⟨hc1, -⟩ := Store.add_eq_ok hadd
    subst hc1
    simp only [Prod.mk.injEq, Except.ok.injEq] at h
    obtain ⟨rfl, rfl⟩ := h
    exact ⟨rfl, rfl⟩

/-- Every facade call other than delete_category, update_category and
update_operation preserves the (amended) category reference invariant. -/
theorem stepFacade_catOk {s s1 : LedgerState} {c : FacadeOp}
    (hc : c.catSafe = true) (h : stepFacade s c = some s1)
    (hinv : catOk s) : catOk s1 := by
  cases c with
  | createAccount name bal today =>
    simp only [stepFacade] at h
    split at h
    · next heq =>
      injection h with h2
      subst h2
      obtain ⟨-, -, -, -, hcats, hops⟩ := create_account_ok heq
      intro op hop
      rw [hcats]
      rcases hops with ⟨-, hopseq, -⟩ | ⟨-, hopseq⟩
      · rw [hopseq] at hop
        simp only [List.mem_append, List.mem_singleton] at hop
        rcases hop with hop | rfl
        · exact hinv op hop
        · rfl
      · rw [hopseq] at hop
        exact hinv op hop
    · simp at h
  | updateAccount aid name =>
    simp only [stepFacade] at h
    split at h
    · next heq =>
      injection h with h2
      subst h2
      obtain ⟨hcats, hops⟩ := update_account_frame heq
      intro op hop
      rw [hcats]
      rw [hops] at hop
      exact hinv op hop
    · simp at h
  | deleteAccount aid =>
    simp only [stepFacade] at h
    split at h
    · next r s2 heq =>
      injection h with h2
      subst h2
      cases r
      obtain ⟨hcats, hops⟩ := delete_account_frame heq
      intro op hop
      rw [hcats]
      rw [hops] at hop
      exact hinv op hop
    · simp at h
  | recalcBalance aid =>
    simp only [stepFacade] at h
    split at h
    · next heq =>
      injection h with h2
      subst h2
      obtain ⟨hcats, hops⟩ := recalculate_balance_frame heq
      intro op hop
      rw [hcats]
      rw [hops] at hop
      exact hinv op hop
    · simp at h
  | createCategory name t =>
    simp only [stepFacade] at h
    split at h
    · next heq =>
      injection h with h2
      subst h2
      obtain ⟨hops, hcats⟩ := create_category_shape heq
      intro op hop
      rw [hops] at hop
      have hold := hinv op hop
      cases hcid : op.category_id with
      | none => simp [opCatOk, hcid]
      | some cid =>
        simp only [opCatOk, hcid] at hold ⊢
        by_cases hc0 : cid = 0
        · rw [if_pos hc0]
        · rw [if_neg hc0] at hold ⊢
          cases hget : s.categories.get_by_id cid with
          | none =>
            rw [hget] at hold
            simp at hold
          | some cat0 =>
            rw [hget] at hold
            have hget0 : List.find? (fun x => HasKey.key x == cid)
                s.categories.items = some cat0 := hget
            rw [hcats]
            unfold Store.get_by_id
            simp only
            rw [find?_append_some hget0]
            exact hold
    · simp at h
  | createOperation t aid amount d descr cid =>
    simp only [stepFacade] at h
    split at h
    · next heq =>
      injection h with h2
      subst h2
      obtain ⟨account, hacc, hcat, hrest⟩ := create_operation_ok heq
      obtain ⟨-, hopeq, -, hcats, hops, -⟩ := create_operation_rest_ok hrest
      intro op hop
      rw [hops] at hop
      simp only [List.mem_append, List.mem_singleton] at hop
      rw [hcats]
      rcases hop with hop | rfl
      · exact hinv op hop
      · subst hopeq
        unfold opCatOk
        cases cid with
        | none => rfl
        | some c =>
          simp only
          by_cases hc0 : c = 0
          · rw [if_pos hc0]
          · rw [if_neg hc0]
            obtain ⟨cat, hget, hty⟩ := hcat (by simp [truthyNat, hc0])
            simp only [Option.getD_some] at hget
            rw [hget]
            simp [hty]
    · simp at h
  | deleteOperation oid =>
    simp only [stepFacade] at h
    split at h
    · next r s2 heq =>
      injection h with h2
      subst h2
      cases r
      obtain ⟨op0, -, hcats, hops, -⟩ := delete_operation_ok heq
      intro op hop
      rw [hops] at hop
      rw [hcats]
      exact hinv op (List.mem_filter.mp hop).1
    · simp at h
  | updateCategory a b t => simp [FacadeOp.catSafe] at hc
  | deleteCategory a => simp [FacadeOp.catSafe] at hc
  | updateOperation a b d e f g => simp [FacadeOp.catSafe] at hc

/-- Claim C4 as amended: the category-reference invariant (non-null nonzero
`category_id` resolves to a live category of matching type) is preserved by
every sequence of successful facade calls that avoids `delete_category`,
`update_category` and `update_operation`. -/
theorem C4_referential_integrity_amended {calls : List FacadeOp}
    {s s' : LedgerState} (hcalls : ∀ c ∈ calls, c.catSafe = true)
    (hrun : runFacade calls s = some s') (hinv : catOk s) : catOk s' := by
  induction calls generalizing s with
  | nil =>
    simp only [runFacade, Option.some.injEq] at hrun
    subst hrun
    exact hinv
  | cons c cs ih =>
    simp only [runFacade] at hrun
    cases hstep : stepFacade s c with
    | none =>
      rw [hstep] at hrun
      simp at hrun
    | some s1 =>
      rw [hstep] at hrun
      exact ih (fun d hd => hcalls d (List.mem_cons_of_mem _ hd))
        hrun (stepFacade_catOk (hcalls c (List.mem_cons_self c cs)) hstep hinv)

/-- Account "A", category "Groceries" (Expense), an expense referencing it,
then `delete_category` — every call succeeds. -/
def c4calls : List FacadeOp :=
  [.createAccount "A" 0 0,
   .createCategory "Groceries" .expense,
   .createOperation .expense 1 5 0 none (some 1),
   .deleteCategory 1]

/-- The state after `c4calls`: the operation still carries
`category_id = 1` but the category store is empty. -/
def c4After : LedgerState :=
  ⟨⟨[⟨1, "A", -5⟩], 2⟩, ⟨[], 2⟩, ⟨[⟨1, .expense, 1, 5, 0, none, some 1⟩], 2⟩⟩

/-- Counterexample to C4 as stated: after the successful facade call
`delete_category 1`, the stored operation's non-null `category_id = 1` no
longer resolves to any live category. -/
theorem C4_counterexample :
    runFacade c4calls initialState = some c4After ∧ ¬ catStrict c4After :=
  ⟨by decide, by decide⟩

/-- The first three calls of the C4 scenario — all category-safe. -/
def c4callsSafe : List FacadeOp :=
  [.createAccount "A" 0 0,
   .createCategory "Groceries" .expense,
   .createOperation .expense 1 5 0 none (some 1)]

/-- The state after `c4callsSafe`. -/
def c4Mid : LedgerState :=
  ⟨⟨[⟨1, "A", -5⟩], 2⟩, ⟨[⟨1, .expense, "Groceries"⟩], 2⟩,
   ⟨[⟨1, .expense, 1, 5, 0, none, some 1⟩], 2⟩⟩

/-- Witness for the amended C4 on the concrete safe prefix. -/
theorem C4_referential_integrity_amended_witness :
    runFacade c4callsSafe initialState = some c4Mid ∧ catOk c4Mid :=
  ⟨by decide,
   @C4_referential_integrity_amended c4callsSafe initialState c4Mid
     (by decide) (by decide) (by decide)⟩

/-! ### Claim C3 — caching proxy coherence (corrected) -/

/-- Cache coherence of the proxy: every cached entry agrees with the
wrapped repository, and when the all-accounts snapshot exists it is the
wrapped repository's list with the id cache rebuilt from it. -/
abbrev coherent (p : BankAccountRepositoryProxy) : Prop :=
  (∀ e ∈ p.cache, p.real_repository.get_by_id e.1 = some e.2) ∧
  (p.all_cache = none ∨
    (p.all_cache = some p.real_repository.get_all ∧
     p.cache = p.real_repository.get_all.map (fun acc => (acc.id, acc))))

/-- Coherence plus well-formedness of the wrapped repository. -/
abbrev proxyInv (p : BankAccountRepositoryProxy) : Prop :=
  storeWF p.real_repository ∧ coherent p

theorem Store.add_wf {α : Type} [HasKey α] {s : Store α} {x : α}
    {r : Store α} (hwf : storeWF s) (h : s.add x = .ok r) : storeWF r := by
  obtain ⟨hr, hfresh⟩ := Store.add_eq_ok h
  subst hr
  constructor
  · intro y hy
    rcases List.mem_append.mp hy with hy | hy
    · have := hwf.1 y hy
      simp only
      omega
    · simp only [List.mem_singleton] at hy
      subst hy
      simp only
      omega
  · simp only [List.map_append]
    refine List.Nodup.append hwf.2 (by simp) ?_
    intro k hk
    simp only [List.map_cons, List.map_nil, List.mem_singleton]
    rcases List.mem_map.mp hk with ⟨y, hy, rfl⟩
    exact hfresh y hy

theorem Store.update_wf {α : Type} [HasKey α] {s : Store α} {x : α}
    {r : Store α} (hwf : storeWF s) (h : s.update x = .ok r) : storeWF r := by
  rw [Store.update_eq_ok h]
  exact storeWF_replace hwf x

theorem Store.delete_wf {α : Type} [HasKey α] {s : Store α} {id : Nat}
    {r : Store α} (hwf : storeWF s) (h : s.delete id = .ok r) : storeWF r := by
  rw [Store.delete_eq_ok h]
  exact storeWF_filter hwf _

theorem proxy_get_by_id_correct {p : BankAccountRepositoryProxy}
    (hp : proxyInv p) (id : Nat) :
    (p.get_by_id id).1 = p.real_repository.get_by_id id := by
  unfold BankAccountRepositoryProxy.get_by_id
  cases hfind : p.cache.find? (fun e => e.1 == id) with
  | none =>
    cases hreal : p.real_repository.get_by_id id <;> simp [hreal]
  | some e =>
    have hmem := List.mem_of_find?_eq_some hfind
    have hkey : e.1 = id := by simpa using List.find?_some hfind
    have hco := hp.2.1 e hmem
    rw [hkey] at hco
    simp [hco]

theorem proxy_get_all_correct {p : BankAccountRepositoryProxy}
    (hp : proxyInv p) :
    p.get_all.1 = p.real_repository.get_all := by
  unfold BankAccountRepositoryProxy.get_all
  cases hall : p.all_cache with
  | none => simp
  | some l =>
    rcases hp.2.2 with hnone | ⟨hsome, -⟩
    · rw [hall] at hnone
      cases hnone
    · rw [hall] at hsome
      injection hsome with h1

theorem stepProxy_inv {p : BankAccountRepositoryProxy}
    (hp : proxyInv p) (c : ProxyOp) : proxyInv (stepProxy p c) := by
  obtain ⟨hwf, hcache, hall⟩ := hp
  cases c with
  | getById id =>
    simp only [stepProxy, BankAccountRepositoryProxy.get_by_id]
    cases hfind : p.cache.find? (fun e => e.1 == id) with
    | some e => exact ⟨hwf, hcache, hall⟩
    | none =>
      cases hreal : p.real_repository.get_by_id id with
      | none => exact ⟨hwf, hcache, hall⟩
      | some account =>
        refine ⟨hwf, ?_, ?_⟩
        · intro e he
          simp only at he
          rcases List.mem_append.mp he with he | he
          · exact hcache e he
          · simp only [List.mem_singleton] at he
            subst he
            exact hreal
        · rcases hall with hnone | ⟨hsome, hmap⟩
          · left
            exact hnone
          · exfalso
            obtain ⟨haccmem, hacckey⟩ := Store.get_by_id_mem hreal
            have : (account.id, account) ∈ p.cache := by
              rw [hmap]
              exact List.mem_map_of_mem _ haccmem
            have hnone2 := List.find?_eq_none.mp hfind _ this
            rw [key_account_def] at hacckey
            simp [hacckey] at hnone2
  | getAll =>
    simp only [stepProxy, BankAccountRepositoryProxy.get_all]
    cases hallc : p.all_cache with
    | some l => exact ⟨hwf, hcache, hall⟩
    | none =>
      refine ⟨hwf, ?_, ?_⟩
      · intro e he
        simp only at he
        rcases List.mem_map.mp he with ⟨b, hb, rfl⟩
        exact Store.get_by_id_of_nodup_mem hwf.2 hb
      · right
        exact ⟨rfl, rfl⟩
  | addAccount a =>
    simp only [stepProxy, BankAccountRepositoryProxy.add]
    cases hadd : p.real_repository.add a with
    | error e => exact ⟨hwf, hcache, hall⟩
    | ok r1 =>
      exact ⟨Store.add_wf hwf hadd, by simp, .inl rfl⟩
  | updateAccount a =>
    simp only [stepProxy, BankAccountRepositoryProxy.update]
    cases hupd : p.real_repository.update a with
    | error e => exact ⟨hwf, hcache, hall⟩
    | ok r1 =>
      exact ⟨Store.update_wf hwf hupd, by simp, .inl rfl⟩
  | deleteAccount id =>
    simp only [stepProxy, BankAccountRepositoryProxy.delete]
    cases hdel : p.real_repository.delete id with
    | error e => exact ⟨hwf, hcache, hall⟩
    | ok r1 =>
      exact ⟨Store.delete_wf hwf hdel, by simp, .inl rfl⟩
  | nextId => exact ⟨hwf, hcache, hall⟩

theorem runProxy_inv {ops : List ProxyOp} {p : BankAccountRepositoryProxy}
    (hp : proxyInv p) : proxyInv (runProxy ops p) := by
  induction ops generalizing p with
  | nil => exact hp
  | cons c cs ih => exact ih (stepProxy_inv hp c)

/-- Claim C3 as amended: starting from a fresh proxy over a well-formed
account store and running any sequence of proxy calls (no direct writes to
the wrapped store), the invariant holds throughout; under it `get_by_id`
and `get_all` return exactly what the wrapped store returns; absent
lookups never change the proxy (nothing cached); a successful
add/update/delete clears both caches (a failed one leaves the wrapped
store and both caches unchanged); and after `get_all` the id cache is
exactly the snapshot, keyed by id. -/
theorem C3_proxy_refinement_amended :
    (∀ (r : Store BankAccount) (ops : List ProxyOp), storeWF r →
      proxyInv (runProxy ops (BankAccountRepositoryProxy.mk0 r))) ∧
    (∀ (p : BankAccountRepositoryProxy) (id : Nat), proxyInv p →
      (p.get_by_id id).1 = p.real_repository.get_by_id id) ∧
    (∀ (p : BankAccountRepositoryProxy), proxyInv p →
      p.get_all.1 = p.real_repository.get_all) ∧
    (∀ (p : BankAccountRepositoryProxy) (id : Nat),
      (p.get_by_id id).2.real_repository = p.real_repository ∧
      (p.real_repository.get_by_id id = none → (p.get_by_id id).2 = p)) ∧
    (∀ (p : BankAccountRepositoryProxy) (a : BankAccount),
      (p.add a).1 = .ok () →
        (p.add a).2.cache = [] ∧ (p.add a).2.all_cache = none) ∧
    (∀ (p : BankAccountRepositoryProxy) (a : BankAccount),
      (p.update a).1 = .ok () →
        (p.update a).2.cache = [] ∧ (p.update a).2.all_cache = none) ∧
    (∀ (p : BankAccountRepositoryProxy) (id : Nat),
      (p.delete id).1 = .ok () →
        (p.delete id).2.cache = [] ∧ (p.delete id).2.all_cache = none) ∧
    (∀ (p : BankAccountRepositoryProxy), proxyInv p →
      p.get_all.2.cache = p.get_all.1.map (fun acc => (acc.id, acc)) ∧
      p.get_all.2.all_cache = some p.get_all.1) := by
  refine ⟨?_, ?_, ?_, ?_, ?_, ?_, ?_, ?_⟩
  · intro r ops hr
    exact runProxy_inv ⟨hr, by simp [BankAccountRepositoryProxy.mk0], .inl rfl⟩
  · intro p id hp
    exact proxy_get_by_id_correct hp id
  · intro p hp
    exact proxy_get_all_correct hp
  · intro p id
    constructor
    · unfold BankAccountRepositoryProxy.get_by_id
      cases hfind : p.cache.find? (fun e => e.1 == id) with
      | some e => rfl
      | none =>
        cases hreal : p.real_repository.get_by_id id <;> simp [hreal]
    · intro hnone
      unfold BankAccountRepositoryProxy.get_by_id
      cases hfind : p.cache.find? (fun e => e.1 == id) with
      | some e => rfl
      | none => simp [hnone]
  · intro p a hok
    unfold BankAccountRepositoryProxy.add at hok ⊢
    cases hadd : p.real_repository.add a with
    | error e =>
      rw [hadd] at hok
      simp at hok
    | ok r1 => exact ⟨rfl, rfl⟩
  · intro p a hok
    unfold BankAccountRepositoryProxy.update at hok ⊢
    cases hupd : p.real_repository.update a with
    | error e =>
      rw [hupd] at hok
      simp at hok
    | ok r1 => exact ⟨rfl, rfl⟩
  · intro p id hok
    unfold BankAccountRepositoryProxy.delete at hok ⊢
    cases hdel : p.real_repository.delete id with
    | error e =>
      rw [hdel] at hok
      simp at hok
    | ok r1 => exact ⟨rfl, rfl⟩
  · intro p hp
    unfold BankAccountRepositoryProxy.get_all
    cases hall : p.all_cache with
    | none => exact ⟨rfl, rfl⟩
    | some l =>
      rcases hp.2.2 with hnone | ⟨hsome, hmap⟩
      · rw [hall] at hnone
        cases hnone
      · rw [hall] at hsome
        injection hsome with h1
        subst h1
        refine ⟨?_, ?_⟩
        · simpa using hmap
        · simpa using hall

/-- A fresh proxy over a one-account store — the C3 scenario state. -/
def c3proxy : BankAccountRepositoryProxy :=
  .mk0 ⟨[⟨1, "A", 100⟩], 2⟩

/-- Counterexample to C3 as stated ("after any add/update/delete both
caches are cleared"): `get_all` fills both caches, then `delete 99` raises
NotFound inside the wrapped store, so `_invalidate_cache` never runs and
both caches survive. -/
theorem C3_counterexample :
    ¬ ((runProxy [.getAll, .deleteAccount 99] c3proxy).cache = [] ∧
       (runProxy [.getAll, .deleteAccount 99] c3proxy).all_cache = none) := by
  decide

/-- Witness for the amended C3 at concrete inputs: a run mixing reads and a
successful write keeps the invariant; reads return the wrapped store's
answers; a successful delete clears both caches. -/
theorem C3_proxy_refinement_amended_witness :
    proxyInv (runProxy [.getAll, .getById 1, .addAccount ⟨2, "B", 0⟩]
      (BankAccountRepositoryProxy.mk0 ⟨[⟨1, "A", 100⟩], 2⟩)) ∧
    (c3proxy.get_by_id 1).1 = c3proxy.real_repository.get_by_id 1 ∧
    c3proxy.get_all.1 = c3proxy.real_repository.get_all ∧
    ((c3proxy.delete 1).1 = .ok () →
      (c3proxy.delete 1).2.cache = [] ∧
      (c3proxy.delete 1).2.all_cache = none) ∧
    (c3proxy.get_all.2.cache
        = c3proxy.get_all.1.map (fun acc => (acc.id, acc)) ∧
      c3proxy.get_all.2.all_cache = some c3proxy.get_all.1) :=
  ⟨C3_proxy_refinement_amended.1 ⟨[⟨1, "A", 100⟩], 2⟩
     [.getAll, .getById 1, .addAccount ⟨2, "B", 0⟩] (by decide),
   C3_proxy_refinement_amended.2.1 c3proxy 1 (by decide),
   C3_proxy_refinement_amended.2.2.1 c3proxy (by decide),
   C3_proxy_refinement_amended.2.2.2.2.2.2.1 c3proxy 1,
   C3_proxy_refinement_amended.2.2.2.2.2.2.2 c3proxy (by decide)⟩

/-! ### Claim C5 — partial-failure import (code bug) -/

/-- The parsed account section of the claim's file: three accounts, the
middle one with a malformed balance field. -/
def c5raws : List RawAccount :=
  [⟨some 1, some "A", some "100"⟩,
   ⟨some 2, some "B", some "abc"⟩,
   ⟨some 3, some "C", some "50"⟩]

/-- Claim C5 evaluated on the code at the claim's own failing input:
`Decimal("abc")` raises `decimal.InvalidOperation`, which the per-record
handler `except (KeyError, ValueError)` does not catch, so the whole
conversion aborts and zero accounts are imported — not 2 accepted / 1
skipped.  A record with a missing key (KeyError) is skipped as the claim
describes, and without the malformed record both valid accounts convert
and land in the store. -/
theorem C5_import_conversion_aborts :
    parseDecimal "abc" = .error .invalidOperation ∧
    caughtByConvert .invalidOperation = false ∧
    convert_accounts c5raws = .error .invalidOperation ∧
    convert_accounts [⟨some 1, some "A", some "100"⟩,
        ⟨none, some "B", some "1"⟩, ⟨some 3, some "C", some "50"⟩]
      = .ok ([⟨1, "A", 100⟩, ⟨3, "C", 50⟩], 1) ∧
    convert_accounts [⟨some 1, some "A", some "100"⟩,
        ⟨some 3, some "C", some "50"⟩]
      = .ok ([⟨1, "A", 100⟩, ⟨3, "C", 50⟩], 0) ∧
    import_accounts initialState [⟨1, "A", 100⟩, ⟨3, "C", 50⟩]
      = (2, ⟨⟨[⟨1, "A", 100⟩, ⟨3, "C", 50⟩], 4⟩, ⟨[], 1⟩, ⟨[], 1⟩⟩) :=
  ⟨rfl, rfl, rfl, rfl, rfl, rfl⟩

end FinAcct
